import Mathlib

/-!
Verification development for the `superexpressive` regular-expression
builder (files `superexpressive/types.py` and `superexpressive/__init__.py`).

The Python AST node classes of `types.py` form a closed tagged union and are
embedded as the inductive type `Element`.  `ContainsChild` subclasses (all of
them quantifiers) carry `child : Option Element`; `ContainsChildren`
subclasses carry `children : List Element`.  Machine-level concerns that are
out of the embedding's scope: the `Unicode` leaf (its validation consults the
external Unicode name table) is omitted; all other leaves are embedded.

Python object identity (`is`) is modelled as follows: `replace_child`
locates the old child by object identity, and along the builder's open-node
path the identity child is always the most recently appended (hence last)
child of its parent, so `replaceChild` here substitutes the last child; in
the merge rewrite the loop substitutes each child of the original tuple in
order, and since every child object occurs exactly once in its tuple this is
the positional elementwise rewrite `_merge_children`.
-/

/-- Error kinds raised by the Python source (messages elided). -/
inductive Err where
  | valueError
  | runtimeError
  | indexError
  | attributeError
  deriving DecidableEq, Repr

/-- The closed union of AST node types declared in `types.py`. -/
inductive Element where
  | root (children : List Element)
  | noop
  | startOfInput
  | endOfInput
  | anyChar
  | whitespaceChar
  | nonWhitespaceChar
  | digit
  | nonDigit
  | word
  | nonWord
  | wordBoundary
  | nonWordBoundary
  | newline
  | carriageReturn
  | tab
  | nullByte
  | anyOfChars (chars : String)
  | anythingButString (s : String)
  | anythingButChars (chars : String)
  | anythingButRange (low high : Char)
  | char (c : Char)
  | range (low high : Char)
  | string (s : String)
  | namedBackReference (name : String)
  | backreference (index : Nat)
  | capture (children : List Element)
  | subexpression (children : List Element)
  | namedCapture (children : List Element) (name : String)
  | group (children : List Element)
  | anyOf (children : List Element)
  | assertAhead (children : List Element)
  | assertNotAhead (children : List Element)
  | exactly (times : Nat) (child : Option Element)
  | atLeast (times : Nat) (child : Option Element)
  | between (low high : Nat) (child : Option Element)
  | betweenLazy (low high : Nat) (child : Option Element)
  | zeroOrMore (child : Option Element)
  | zeroOrMoreLazy (child : Option Element)
  | oneOrMore (child : Option Element)
  | oneOrMoreLazy (child : Option Element)
  | opt (child : Option Element)
  | asciiBell
  | asciiBackspace
  | asciiFormfeed
  | asciiVerticalTab
  | backslash
  | startOfString
  | endOfString
  | hex (code : String)

namespace Element

/-- True for the `ContainsChild` subclasses of `types.py` (all of which are
quantifiers: `Exactly`, `AtLeast`, `Between`, `BetweenLazy`, `ZeroOrMore`,
`ZeroOrMoreLazy`, `OneOrMore`, `OneOrMoreLazy`, `Opt`). -/
def isContainsChild : Element → Bool
  | .exactly _ _ | .atLeast _ _ | .between _ _ _ | .betweenLazy _ _ _
  | .zeroOrMore _ | .zeroOrMoreLazy _ | .oneOrMore _ | .oneOrMoreLazy _
  | .opt _ => true
  | _ => false

/-- True for the `ContainsChildren` subclasses of `types.py`: `Root`,
`Capture`, `Subexpression`, `NamedCapture`, `Group`, `AnyOf`, `AssertAhead`,
`AssertNotAhead`. -/
def isContainsChildren : Element → Bool
  | .root _ | .capture _ | .subexpression _ | .namedCapture _ _ | .group _
  | .anyOf _ | .assertAhead _ | .assertNotAhead _ => true
  | _ => false

/-- Source `STACKABLE = (ContainsChild, ContainsChildren)`. -/
def isStackable (e : Element) : Bool :=
  e.isContainsChild || e.isContainsChildren

/-- True exactly for the `Root` node. -/
def isRoot : Element → Bool
  | .root _ => true
  | _ => false

/-- True exactly for the `StartOfInput` leaf. -/
def isStartOfInput : Element → Bool
  | .startOfInput => true
  | _ => false

/-- True exactly for the `AnyOf` node. -/
def isAnyOf : Element → Bool
  | .anyOf _ => true
  | _ => false

/-- The `child` slot of a `ContainsChild` node (`none` when the node is not
a `ContainsChild`; `some none` is an unset child slot). -/
def child? : Element → Option (Option Element)
  | .exactly _ c | .atLeast _ c | .between _ _ c | .betweenLazy _ _ c
  | .zeroOrMore c | .zeroOrMoreLazy c | .oneOrMore c | .oneOrMoreLazy c
  | .opt c => some c
  | _ => none

/-- The `children` tuple of a `ContainsChildren` node. -/
def children? : Element → Option (List Element)
  | .root cs | .capture cs | .subexpression cs | .namedCapture cs _
  | .group cs | .anyOf cs | .assertAhead cs | .assertNotAhead cs => some cs
  | _ => none

/-- Rebuild a `ContainsChild` node with a new `child`, keeping every other
field (the source's `type(self)(**kwargs)` reconstruction). -/
def withChild (e : Element) (c : Option Element) : Element :=
  match e with
  | .exactly t _ => .exactly t c
  | .atLeast t _ => .atLeast t c
  | .between l h _ => .between l h c
  | .betweenLazy l h _ => .betweenLazy l h c
  | .zeroOrMore _ => .zeroOrMore c
  | .zeroOrMoreLazy _ => .zeroOrMoreLazy c
  | .oneOrMore _ => .oneOrMore c
  | .oneOrMoreLazy _ => .oneOrMoreLazy c
  | .opt _ => .opt c
  | e => e

/-- Rebuild a `ContainsChildren` node with a new `children` tuple, keeping
every other field. -/
def withChildren (e : Element) (cs : List Element) : Element :=
  match e with
  | .root _ => .root cs
  | .capture _ => .capture cs
  | .subexpression _ => .subexpression cs
  | .namedCapture _ n => .namedCapture cs n
  | .group _ => .group cs
  | .anyOf _ => .anyOf cs
  | .assertAhead _ => .assertAhead cs
  | .assertNotAhead _ => .assertNotAhead cs
  | e => e

/-- True for the `QuantifierRequiresGroup` marker classes of `types.py`:
`Root`, `Subexpression` and `String` (note: every `String`, also a
single-character one). -/
def requiresGroup : Element → Bool
  | .root _ | .subexpression _ | .string _ => true
  | _ => false

end Element

mutual

/-- Structural equality test on elements (used where the source compares
nodes; frozen dataclasses compare fieldwise). -/
def Element.beq : Element → Element → Bool
  | .root cs => fun b => match b with | .root ds => Element.beqList cs ds | _ => false
  | .noop => fun b => match b with | .noop => true | _ => false
  | .startOfInput => fun b => match b with | .startOfInput => true | _ => false
  | .endOfInput => fun b => match b with | .endOfInput => true | _ => false
  | .anyChar => fun b => match b with | .anyChar => true | _ => false
  | .whitespaceChar => fun b => match b with | .whitespaceChar => true | _ => false
  | .nonWhitespaceChar => fun b => match b with | .nonWhitespaceChar => true | _ => false
  | .digit => fun b => match b with | .digit => true | _ => false
  | .nonDigit => fun b => match b with | .nonDigit => true | _ => false
  | .word => fun b => match b with | .word => true | _ => false
  | .nonWord => fun b => match b with | .nonWord => true | _ => false
  | .wordBoundary => fun b => match b with | .wordBoundary => true | _ => false
  | .nonWordBoundary => fun b => match b with | .nonWordBoundary => true | _ => false
  | .newline => fun b => match b with | .newline => true | _ => false
  | .carriageReturn => fun b => match b with | .carriageReturn => true | _ => false
  | .tab => fun b => match b with | .tab => true | _ => false
  | .nullByte => fun b => match b with | .nullByte => true | _ => false
  | .anyOfChars a => fun b => match b with | .anyOfChars c => a == c | _ => false
  | .anythingButString a => fun b => match b with | .anythingButString c => a == c | _ => false
  | .anythingButChars a => fun b => match b with | .anythingButChars c => a == c | _ => false
  | .anythingButRange a a' => fun b => match b with | .anythingButRange c c' => a == c && a' == c' | _ => false
  | .char a => fun b => match b with | .char c => a == c | _ => false
  | .range a a' => fun b => match b with | .range c c' => a == c && a' == c' | _ => false
  | .string a => fun b => match b with | .string c => a == c | _ => false
  | .namedBackReference a => fun b => match b with | .namedBackReference c => a == c | _ => false
  | .backreference a => fun b => match b with | .backreference c => a == c | _ => false
  | .capture cs => fun b => match b with | .capture ds => Element.beqList cs ds | _ => false
  | .subexpression cs => fun b => match b with | .subexpression ds => Element.beqList cs ds | _ => false
  | .namedCapture cs a => fun b => match b with | .namedCapture ds c => a == c && Element.beqList cs ds | _ => false
  | .group cs => fun b => match b with | .group ds => Element.beqList cs ds | _ => false
  | .anyOf cs => fun b => match b with | .anyOf ds => Element.beqList cs ds | _ => false
  | .assertAhead cs => fun b => match b with | .assertAhead ds => Element.beqList cs ds | _ => false
  | .assertNotAhead cs => fun b => match b with | .assertNotAhead ds => Element.beqList cs ds | _ => false
  | .exactly a c => fun b => match b with | .exactly a' c' => a == a' && Element.beqOpt c c' | _ => false
  | .atLeast a c => fun b => match b with | .atLeast a' c' => a == a' && Element.beqOpt c c' | _ => false
  | .between a a' c => fun b => match b with | .between d d' c' => a == d && a' == d' && Element.beqOpt c c' | _ => false
  | .betweenLazy a a' c => fun b => match b with | .betweenLazy d d' c' => a == d && a' == d' && Element.beqOpt c c' | _ => false
  | .zeroOrMore c => fun b => match b with | .zeroOrMore c' => Element.beqOpt c c' | _ => false
  | .zeroOrMoreLazy c => fun b => match b with | .zeroOrMoreLazy c' => Element.beqOpt c c' | _ => false
  | .oneOrMore c => fun b => match b with | .oneOrMore c' => Element.beqOpt c c' | _ => false
  | .oneOrMoreLazy c => fun b => match b with | .oneOrMoreLazy c' => Element.beqOpt c c' | _ => false
  | .opt c => fun b => match b with | .opt c' => Element.beqOpt c c' | _ => false
  | .asciiBell => fun b => match b with | .asciiBell => true | _ => false
  | .asciiBackspace => fun b => match b with | .asciiBackspace => true | _ => false
  | .asciiFormfeed => fun b => match b with | .asciiFormfeed => true | _ => false
  | .asciiVerticalTab => fun b => match b with | .asciiVerticalTab => true | _ => false
  | .backslash => fun b => match b with | .backslash => true | _ => false
  | .startOfString => fun b => match b with | .startOfString => true | _ => false
  | .endOfString => fun b => match b with | .endOfString => true | _ => false
  | .hex a => fun b => match b with | .hex c => a == c | _ => false

def Element.beqList : List Element → List Element → Bool
  | [], [] => true
  | a :: as', b :: bs' => Element.beq a b && Element.beqList as' bs'
  | _, _ => false

def Element.beqOpt : Option Element → Option Element → Bool
  | none, none => true
  | some a, some b => Element.beq a b
  | _, _ => false

end


/-- Source `SPECIAL_CHARS` of `types.py`: the characters escaped with a backslash
by `ESCAPE_TABLE`. -/
def SPECIAL_CHARS : List Char :=
  ['\\', '.', '^', '$', '|', '?', '*', '+', '(', ')', '[', ']', '\x7b', '\x7d', '-']

/-- Escape one character against `ESCAPE_TABLE`. -/
def escapeChar (c : Char) : String :=
  if SPECIAL_CHARS.contains c then "\\" ++ c.toString else c.toString

/-- The source's `str.translate(ESCAPE_TABLE)`. -/
def escapeString (s : String) : String :=
  String.join (s.toList.map escapeChar)

/-- True for the node types fused into one bracket class by `AnyOf.__str__`
(the exact-type tests `type(child) is Char / AnyOfChars / Range`). -/
def Element.isFusable : Element → Bool
  | .char _ | .anyOfChars _ | .range _ _ => true
  | _ => false

/-- The bracket-class text contributed by a fusable child in
`AnyOf.__str__`. -/
def Element.fuseText : Element → String
  | .char c => escapeChar c
  | .anyOfChars s => escapeString s
  | .range l h => escapeChar l ++ "-" ++ escapeChar h
  | _ => ""

/-- The quantifier suffix (`Quantifier.symbol` of each subclass); `none` for
non-quantifier nodes. -/
def Element.quantSymbol : Element → Option String
  | .exactly t _ => some ("\x7b" ++ toString t ++ "\x7d")
  | .atLeast t _ => some ("\x7b" ++ toString t ++ ",\x7d")
  | .between l h _ => some ("\x7b" ++ toString l ++ "," ++ toString h ++ "\x7d")
  | .betweenLazy l h _ => some ("\x7b" ++ toString l ++ "," ++ toString h ++ "\x7d?")
  | .zeroOrMore _ => some "*"
  | .zeroOrMoreLazy _ => some "*?"
  | .oneOrMore _ => some "+"
  | .oneOrMoreLazy _ => some "+?"
  | .opt _ => some "?"
  | _ => none

mutual

/-- Rendering of an AST node: the `__str__` methods of `types.py`. -/
def render : Element → String
  | .root cs => renderList cs
  | .noop => ""
  | .startOfInput => "^"
  | .endOfInput => "$"
  | .anyChar => "."
  | .whitespaceChar => "\\s"
  | .nonWhitespaceChar => "\\S"
  | .digit => "\\d"
  | .nonDigit => "\\D"
  | .word => "\\w"
  | .nonWord => "\\W"
  | .wordBoundary => "\\b"
  | .nonWordBoundary => "\\B"
  | .newline => "\\n"
  | .carriageReturn => "\\r"
  | .tab => "\\t"
  | .nullByte => "\\x00"
  | .anyOfChars chars => "[" ++ escapeString chars ++ "]"
  | .anythingButString s =>
    "(?:" ++ String.join (s.toList.map (fun c => "[^" ++ escapeChar c ++ "]")) ++ ")"
  | .anythingButChars chars => "[^" ++ escapeString chars ++ "]"
  | .anythingButRange l h => "[^" ++ escapeChar l ++ "-" ++ escapeChar h ++ "]"
  | .char c => escapeChar c
  | .range l h => "[" ++ escapeChar l ++ "-" ++ escapeChar h ++ "]"
  | .string s => escapeString s
  | .namedBackReference name => "\\g<" ++ name ++ ">"
  | .backreference index => "\\" ++ toString index
  | .capture cs => "(" ++ renderList cs ++ ")"
  | .subexpression cs => renderList cs
  | .namedCapture cs name => "(?P<" ++ name ++ ">" ++ renderList cs ++ ")"
  | .group cs => "(?:" ++ renderList cs ++ ")"
  | .anyOf cs =>
    -- AnyOf.__str__: fuse Char / AnyOfChars / Range children into one
    -- bracket class; remaining children become |-separated alternatives.
    let fusable := (cs.filter Element.isFusable).map Element.fuseText
    let innerBits := renderNonFusable cs
    if fusable ≠ [] then
      if innerBits = [] then "[" ++ String.join fusable ++ "]"
      else
        "(?:" ++ String.intercalate "|"
          (innerBits ++ ["[" ++ String.join fusable ++ "]"]) ++ ")"
    else "(?:" ++ String.intercalate "|" innerBits ++ ")"
  | .assertAhead cs => "(?=" ++ renderList cs ++ ")"
  | .assertNotAhead cs => "(?!" ++ renderList cs ++ ")"
  | .exactly t c => renderQuant ("\x7b" ++ toString t ++ "\x7d") c
  | .atLeast t c => renderQuant ("\x7b" ++ toString t ++ ",\x7d") c
  | .between l h c => renderQuant ("\x7b" ++ toString l ++ "," ++ toString h ++ "\x7d") c
  | .betweenLazy l h c => renderQuant ("\x7b" ++ toString l ++ "," ++ toString h ++ "\x7d?") c
  | .zeroOrMore c => renderQuant "*" c
  | .zeroOrMoreLazy c => renderQuant "*?" c
  | .oneOrMore c => renderQuant "+" c
  | .oneOrMoreLazy c => renderQuant "+?" c
  | .opt c => renderQuant "?" c
  | .asciiBell => "\\a"
  | .asciiBackspace => "\\b"
  | .asciiFormfeed => "\\f"
  | .asciiVerticalTab => "\\v"
  | .backslash => "\\\\"
  | .startOfString => "\\A"
  | .endOfString => "\\Z"
  | .hex code => "\\x" ++ code

/-- Source `Quantifier.__str__`: render the child (Python's `str(None)` is the
text `None` when the child slot is unset), wrap it in a non-capturing group
when the child is a `QuantifierRequiresGroup`, then append the symbol. -/
def renderQuant (symbol : String) : Option Element → String
  | none => "None" ++ symbol
  | some c =>
    (if c.requiresGroup then "(?:" ++ render c ++ ")" else render c) ++ symbol

/-- Concatenation of the children's renderings (`''.join(map(str, ...))`). -/
def renderList : List Element → String
  | [] => ""
  | c :: rest => render c ++ renderList rest

/-- The non-fusable children of an `AnyOf`, rendered in order
(`inner_bits` of `AnyOf.__str__`). -/
def renderNonFusable : List Element → List String
  | [] => []
  | c :: rest =>
    if c.isFusable then renderNonFusable rest
    else render c :: renderNonFusable rest

end


/-- Source `add_child`: set the child slot of a `ContainsChild` (a `RuntimeError`
if already set), or append to the children tuple of a `ContainsChildren`;
leaves have no such method (an `AttributeError` in Python). -/
def addChild (e child : Element) : Except Err Element :=
  match e.child? with
  | some existing =>
    match existing with
    | some _ => .error .runtimeError
    | none => .ok (e.withChild (some child))
  | none =>
    match e.children? with
    | some cs => .ok (e.withChildren (cs ++ [child]))
    | none => .error .attributeError

/-- Source `replace_child`: substitute `old` by `new`.  The source locates `old` by
object identity; at every call site along the open-node path the identity
child is the most recently appended child, i.e. the set child slot of a
`ContainsChild` or the last entry of a `ContainsChildren`'s tuple (a
`ValueError` when absent). -/
def replaceChild (e old new : Element) : Except Err Element :=
  match e.child? with
  | some existing =>
    match existing with
    | some c => if Element.beq c old then .ok (e.withChild (some new)) else .error .valueError
    | none => .error .valueError
  | none =>
    match e.children? with
    | some cs =>
      match cs.getLast? with
      | some l =>
        if Element.beq l old then .ok (e.withChildren (cs.dropLast ++ [new]))
        else .error .valueError
      | none => .error .valueError
    | none => .error .attributeError

/-- The immutable builder state (`SuperExpressive` dataclass).  The open
stack is stored innermost-first: the Python `stack[-1]` is the head here and
the Python `stack[0]` (the root) is the last entry. -/
structure SuperExpressive where
  check_simple_start_and_end : Bool := false
  stack : List Element := [.root []]
  named_groups : List String := []
  total_capture_groups : Nat := 0
  f_ascii : Bool := false
  f_ignorecase : Bool := false
  f_locale : Bool := false
  f_unicode : Bool := true
  f_multiline : Bool := false
  f_dotall : Bool := false
  f_global : Bool := false

namespace SuperExpressive

/-- Source `_start_defined`: scans the stack entries' immediate children for a
`StartOfInput` leaf. -/
def startDefinedB (s : SuperExpressive) : Bool :=
  s.stack.any fun e =>
    (e.isContainsChild &&
      (match e.child? with
       | some (some c) => c.isStartOfInput
       | _ => false)) ||
    (e.isContainsChildren &&
      (match e.children? with
       | some cs => cs.any Element.isStartOfInput
       | none => false))

/-- Source `_end_defined`: the source's property body is identical to
`_start_defined` — it also tests for `StartOfInput` (sic), not
`EndOfInput`. -/
def endDefinedB (s : SuperExpressive) : Bool :=
  s.stack.any fun e =>
    (e.isContainsChild &&
      (match e.child? with
       | some (some c) => c.isStartOfInput
       | _ => false)) ||
    (e.isContainsChildren &&
      (match e.children? with
       | some cs => cs.any Element.isStartOfInput
       | none => false))

/-- The upward propagation loop of `_push`: rebuild every ancestor on the
open path so that it points at the updated descendant.  `rest` is the open
stack above the current node (innermost-first, ending at the root). -/
def propagate (prev repl : Element) : List Element → Except Err (List Element)
  | [] => .ok []
  | a :: rest => do
    let a' ← replaceChild a prev repl
    let rest' ← propagate a a' rest
    .ok (a' :: rest')

/-- The trailing loop of `_push` and `end`: pop every `ContainsChild` that
is now set off the top of the stack. -/
def popCC : List Element → List Element
  | [] => []
  | a :: rest => if a.isContainsChild then popCC rest else a :: rest

/-- Source `_push`: thread a new element into the innermost open node, propagate
the rewrite up to the root, then either push the element (if stackable) or
auto-close completed single-child containers. -/
def push (s : SuperExpressive) (e : Element) : Except Err SuperExpressive :=
  match s.stack with
  | [] => .error .indexError
  | current :: rest => do
    let nw ← addChild current e
    let rest' ← propagate current nw rest
    let stack := nw :: rest'
    if e.isStackable then .ok { s with stack := e :: stack }
    else .ok { s with stack := popCC stack }

/-- Source `end`: explicitly close the innermost open `ContainsChildren`
(named `endOp` because `end` is reserved in Lean). -/
def endOp (s : SuperExpressive) : Except Err SuperExpressive :=
  if s.stack.length ≤ 1 then .error .runtimeError
  else
    match s.stack with
    | [] => .error .runtimeError
    | t :: rest =>
      if ¬ t.isContainsChildren then .error .runtimeError
      else .ok { s with stack := popCC rest }

/-- Source `_quantify`: refuse to quantify when the innermost open node is already
a quantifier. -/
def _quantify (s : SuperExpressive) (q : Element) : Except Err SuperExpressive :=
  match s.stack with
  | [] => .error .indexError
  | t :: _ => if t.isContainsChild then .error .runtimeError else s.push q

/-- Python's `name` validity test for capture-group names: non-empty, only
ASCII letters, digits and underscore, and starting with a letter. -/
def validGroupName (name : String) : Bool :=
  name ≠ "" &&
  name.toList.all (fun c => c.isAlpha || c.isDigit || c == '_') &&
  (name.toList.head?.map Char.isAlpha).getD false

-- Flags #############################################################

def allow_multiple_matches (s : SuperExpressive) : SuperExpressive :=
  { s with f_global := true }

def line_by_line (s : SuperExpressive) : SuperExpressive :=
  { s with f_multiline := true }

def case_insensitive (s : SuperExpressive) : SuperExpressive :=
  { s with f_ignorecase := true }

def unicode (s : SuperExpressive) : SuperExpressive :=
  { s with f_unicode := true, f_ascii := false, f_locale := false }

def ascii (s : SuperExpressive) : SuperExpressive :=
  { s with f_ascii := true, f_locale := false, f_unicode := false }

def locale (s : SuperExpressive) : SuperExpressive :=
  { s with f_locale := true, f_ascii := false, f_unicode := false }

def single_line (s : SuperExpressive) : SuperExpressive :=
  { s with f_dotall := true }

-- Elements ##########################################################

def any_char (s : SuperExpressive) : Except Err SuperExpressive := s.push .anyChar

def whitespace_char (s : SuperExpressive) : Except Err SuperExpressive := s.push .whitespaceChar

def non_whitespace_char (s : SuperExpressive) : Except Err SuperExpressive := s.push .nonWhitespaceChar

def digit (s : SuperExpressive) : Except Err SuperExpressive := s.push .digit

def non_digit (s : SuperExpressive) : Except Err SuperExpressive := s.push .nonDigit

def word (s : SuperExpressive) : Except Err SuperExpressive := s.push .word

def non_word (s : SuperExpressive) : Except Err SuperExpressive := s.push .nonWord

def word_boundary (s : SuperExpressive) : Except Err SuperExpressive := s.push .wordBoundary

def non_word_boundary (s : SuperExpressive) : Except Err SuperExpressive := s.push .nonWordBoundary

def newline (s : SuperExpressive) : Except Err SuperExpressive := s.push .newline

def carriage_return (s : SuperExpressive) : Except Err SuperExpressive := s.push .carriageReturn

def tab (s : SuperExpressive) : Except Err SuperExpressive := s.push .tab

def null_byte (s : SuperExpressive) : Except Err SuperExpressive := s.push .nullByte

/-- Source `named_backreference`: the name must already exist; the node constructor
then re-validates the name's syntax. -/
def named_backreference (s : SuperExpressive) (name : String) : Except Err SuperExpressive :=
  if ¬ s.named_groups.contains name then .error .valueError
  else if ¬ validGroupName name then .error .valueError
  else s.push (.namedBackReference name)

/-- Source `backreference`: the source accepts `0 <= index <= total_capture_groups`
(the lower bound is vacuous over ℕ). -/
def backreference (s : SuperExpressive) (index : Nat) : Except Err SuperExpressive :=
  if ¬ (index ≤ s.total_capture_groups) then .error .valueError
  else s.push (.backreference index)

def any_of (s : SuperExpressive) : Except Err SuperExpressive := s.push (.anyOf [])

def group (s : SuperExpressive) : Except Err SuperExpressive := s.push (.group [])

def assert_ahead (s : SuperExpressive) : Except Err SuperExpressive := s.push (.assertAhead [])

def assert_not_ahead (s : SuperExpressive) : Except Err SuperExpressive := s.push (.assertNotAhead [])

def capture (s : SuperExpressive) : Except Err SuperExpressive := do
  let s' ← s.push (.capture [])
  .ok { s' with total_capture_groups := s.total_capture_groups + 1 }

def named_capture (s : SuperExpressive) (name : String) : Except Err SuperExpressive :=
  if s.named_groups.contains name then .error .valueError
  else if ¬ validGroupName name then .error .valueError
  else do
    let s' ← s.push (.namedCapture [] name)
    .ok { s' with named_groups := name :: s.named_groups }

def optional (s : SuperExpressive) : Except Err SuperExpressive := s._quantify (.opt none)

def zero_or_more (s : SuperExpressive) : Except Err SuperExpressive := s._quantify (.zeroOrMore none)

def zero_or_more_lazy (s : SuperExpressive) : Except Err SuperExpressive := s._quantify (.zeroOrMoreLazy none)

def one_or_more (s : SuperExpressive) : Except Err SuperExpressive := s._quantify (.oneOrMore none)

def one_or_more_lazy (s : SuperExpressive) : Except Err SuperExpressive := s._quantify (.oneOrMoreLazy none)

/-- Source `exactly`: `Exactly.__post_init__` rejects non-positive counts before
`_quantify` runs. -/
def exactly (s : SuperExpressive) (times : Nat) : Except Err SuperExpressive :=
  if times = 0 then .error .valueError else s._quantify (.exactly times none)

def at_least (s : SuperExpressive) (times : Nat) : Except Err SuperExpressive :=
  if times = 0 then .error .valueError else s._quantify (.atLeast times none)

/-- Source `between`: `Between.__post_init__` rejects `low >= high`. -/
def between (s : SuperExpressive) (low high : Nat) : Except Err SuperExpressive :=
  if low ≥ high then .error .valueError else s._quantify (.between low high none)

def between_lazy (s : SuperExpressive) (low high : Nat) : Except Err SuperExpressive :=
  if low ≥ high then .error .valueError else s._quantify (.betweenLazy low high none)

def start_of_input (s : SuperExpressive) : Except Err SuperExpressive :=
  if s.startDefinedB && s.check_simple_start_and_end then .error .runtimeError
  else if s.endDefinedB && s.check_simple_start_and_end then .error .runtimeError
  else s.push .startOfInput

def end_of_input (s : SuperExpressive) : Except Err SuperExpressive :=
  if s.endDefinedB && s.check_simple_start_and_end then .error .runtimeError
  else s.push .endOfInput

def any_of_chars (s : SuperExpressive) (chars : String) : Except Err SuperExpressive :=
  if chars = "" then .error .valueError else s.push (.anyOfChars chars)

def anything_but_string (s : SuperExpressive) (str : String) : Except Err SuperExpressive :=
  if str = "" then .error .valueError else s.push (.anythingButString str)

def anything_but_chars (s : SuperExpressive) (chars : String) : Except Err SuperExpressive :=
  if chars = "" then .error .valueError else s.push (.anythingButChars chars)

def anything_but_range (s : SuperExpressive) (low high : Char) : Except Err SuperExpressive :=
  if ¬ (low < high) then .error .valueError else s.push (.anythingButRange low high)

def string (s : SuperExpressive) (str : String) : Except Err SuperExpressive :=
  if str = "" then .error .valueError else s.push (.string str)

def char (s : SuperExpressive) (c : Char) : Except Err SuperExpressive :=
  s.push (.char c)

def range (s : SuperExpressive) (low high : Char) : Except Err SuperExpressive :=
  if ¬ (low < high) then .error .valueError else s.push (.range low high)

-- Python Specific ###################################################

def ascii_bell (s : SuperExpressive) : Except Err SuperExpressive := s.push .asciiBell

def ascii_backspace (s : SuperExpressive) : Except Err SuperExpressive :=
  match s.stack with
  | [] => .error .indexError
  | t :: _ => if ¬ t.isAnyOf then .error .runtimeError else s.push .asciiBackspace

def ascii_formfeed (s : SuperExpressive) : Except Err SuperExpressive := s.push .asciiFormfeed

def ascii_vertical_tab (s : SuperExpressive) : Except Err SuperExpressive := s.push .asciiVerticalTab

def backslash (s : SuperExpressive) : Except Err SuperExpressive := s.push .backslash

def start_of_string (s : SuperExpressive) : Except Err SuperExpressive := s.push .startOfString

def end_of_string (s : SuperExpressive) : Except Err SuperExpressive := s.push .endOfString

def isHexDigitChar (c : Char) : Bool :=
  c.isDigit || ('a' ≤ c && c ≤ 'f') || ('A' ≤ c && c ≤ 'F')

def hex_char (s : SuperExpressive) (code : String) : Except Err SuperExpressive :=
  if code.length = 2 && code.toList.all isHexDigitChar then s.push (.hex code)
  else .error .valueError

/-- Source `__str__`: render the root of the stack (`str(self.stack[0])`); `none`
models the `IndexError` an empty stack would raise. -/
def toStr (s : SuperExpressive) : Option String :=
  s.stack.getLast?.map render

end SuperExpressive


mutual

/-- Source `_merge_in_element`: the recursive rewrite applied to a source tree
before splicing it into this builder.  Backreference indices are shifted by
the current `total_capture_groups`; named captures are namespaced and
collision-checked (updating `named_groups`); children are rewritten
recursively left-to-right; anchors are dropped (`Noop`) or conflict-checked.
The `additional_capture_groups` counter of the source is incremented for
`Capture` nodes but never applied to any state, so it has no observable
effect and is not modelled. -/
def _merge_in_element (st : SuperExpressive) (e : Element) (ns : String)
    (ignore_start_and_end : Bool) : Except Err (SuperExpressive × Element) :=
  match e with
  | .backreference index =>
    .ok (st, .backreference (index + st.total_capture_groups))
  | .capture cs => do
    let (st', cs') ← _merge_children st ns ignore_start_and_end cs
    .ok (st', .capture cs')
  | .namedCapture cs name =>
    if ns == "" then
      if st.named_groups.contains name then .error .valueError
      else do
        let st1 := { st with named_groups := name :: st.named_groups }
        let (st2, cs') ← _merge_children st1 ns ignore_start_and_end cs
        .ok (st2, .namedCapture cs' name)
    else
      -- reconstruction under a namespace re-runs the name validation
      if ¬ SuperExpressive.validGroupName (ns ++ name) then .error .valueError
      else if st.named_groups.contains (ns ++ name) then .error .valueError
      else do
        let st1 := { st with named_groups := (ns ++ name) :: st.named_groups }
        let (st2, cs') ← _merge_children st1 ns ignore_start_and_end cs
        .ok (st2, .namedCapture cs' (ns ++ name))
  | .namedBackReference name =>
    -- the source rebuilds the node with the same (un-prefixed) name
    if ns == "" then .ok (st, .namedBackReference name)
    else if ¬ SuperExpressive.validGroupName name then .error .valueError
    else .ok (st, .namedBackReference name)
  | .subexpression cs => do
    let (st', cs') ← _merge_children st ns ignore_start_and_end cs
    .ok (st', .subexpression cs')
  | .root cs => do
    let (st', cs') ← _merge_children st ns ignore_start_and_end cs
    .ok (st', .root cs')
  | .group cs => do
    let (st', cs') ← _merge_children st ns ignore_start_and_end cs
    .ok (st', .group cs')
  | .anyOf cs => do
    let (st', cs') ← _merge_children st ns ignore_start_and_end cs
    .ok (st', .anyOf cs')
  | .assertAhead cs => do
    let (st', cs') ← _merge_children st ns ignore_start_and_end cs
    .ok (st', .assertAhead cs')
  | .assertNotAhead cs => do
    let (st', cs') ← _merge_children st ns ignore_start_and_end cs
    .ok (st', .assertNotAhead cs')
  | .exactly t c => _merge_quant st ns ignore_start_and_end (.exactly t) c
  | .atLeast t c => _merge_quant st ns ignore_start_and_end (.atLeast t) c
  | .between l h c => _merge_quant st ns ignore_start_and_end (.between l h) c
  | .betweenLazy l h c => _merge_quant st ns ignore_start_and_end (.betweenLazy l h) c
  | .zeroOrMore c => _merge_quant st ns ignore_start_and_end .zeroOrMore c
  | .zeroOrMoreLazy c => _merge_quant st ns ignore_start_and_end .zeroOrMoreLazy c
  | .oneOrMore c => _merge_quant st ns ignore_start_and_end .oneOrMore c
  | .oneOrMoreLazy c => _merge_quant st ns ignore_start_and_end .oneOrMoreLazy c
  | .opt c => _merge_quant st ns ignore_start_and_end .opt c
  | .startOfInput =>
    if ignore_start_and_end then .ok (st, .noop)
    else if st.startDefinedB && st.check_simple_start_and_end then .error .valueError
    else if st.endDefinedB && st.check_simple_start_and_end then .error .valueError
    else .ok (st, .startOfInput)
  | .endOfInput =>
    if ignore_start_and_end then .ok (st, .noop)
    else if st.endDefinedB && st.check_simple_start_and_end then .error .valueError
    else .ok (st, .endOfInput)
  | e => .ok (st, e)

/-- The `ContainsChild` branch of `_merge_in_element`: rewrite the child (a
`None` child passes every `isinstance` test unchanged) and reconstruct the
quantifier around it. -/
def _merge_quant (st : SuperExpressive) (ns : String) (ignore_start_and_end : Bool)
    (mk : Option Element → Element) :
    Option Element → Except Err (SuperExpressive × Element)
  | none => .ok (st, mk none)
  | some c => do
    let (st', c') ← _merge_in_element st c ns ignore_start_and_end
    .ok (st', mk (some c'))

/-- The `ContainsChildren` branch of `_merge_in_element`: the source loops
over the original children tuple, rewriting each child and substituting it
via identity-based `replace_child`; each child object occurs exactly once in
its tuple, so the loop is this positional left-to-right rewrite. -/
def _merge_children (st : SuperExpressive) (ns : String) (ignore_start_and_end : Bool) :
    List Element → Except Err (SuperExpressive × List Element)
  | [] => .ok (st, [])
  | c :: rest => do
    let (st1, c') ← _merge_in_element st c ns ignore_start_and_end
    let (st2, rest') ← _merge_children st1 ns ignore_start_and_end rest
    .ok (st2, c' :: rest')

end

namespace SuperExpressive

/-- Flag handling block of `subexpression`: incompatible encoding flags are
a hard error; otherwise each of the four mergeable flags is copied — but
every branch of the source rebuilds its result from `self` (not from the
running `merged` value), so only the last true source flag survives. -/
def _merge_flags (s expression merged : SuperExpressive) (ignore_flags : Bool) :
    Except Err SuperExpressive :=
  if ¬ ignore_flags then
    if s.f_unicode ≠ expression.f_unicode ∨ s.f_ascii ≠ expression.f_ascii
        ∨ s.f_locale ≠ expression.f_locale then
      .error .valueError
    else
      let m1 := if expression.f_ignorecase then { s with f_ignorecase := true } else merged
      let m2 := if expression.f_multiline then { s with f_multiline := true } else m1
      let m3 := if expression.f_dotall then { s with f_dotall := true } else m2
      let m4 := if expression.f_global then { s with f_global := true } else m3
      .ok m4
  else .ok merged

/-- Source `subexpression`: merge a fully-specified builder's tree into this one
and splice the rewritten children in as one `Subexpression` node. -/
def subexpression (s expression : SuperExpressive) (ns : String)
    (ignore_flags ignore_start_and_end : Bool) : Except Err SuperExpressive :=
  match expression.stack with
  | [rootEl] => do
    let (merged, element) ← _merge_in_element s rootEl ns ignore_start_and_end
    let merged ← _merge_flags s expression merged ignore_flags
    match element.children? with
    | some cs => do
      let s' ← merged.push (.subexpression cs)
      s'.endOp
    | none => .error .attributeError
  | _ => .error .valueError

end SuperExpressive


/-- The public builder operations (every chainable method of the
`SuperExpressive` class; `unicode_char` is outside the embedding's scope). -/
inductive Op where
  | allow_multiple_matches
  | line_by_line
  | case_insensitive
  | unicode
  | ascii
  | locale
  | single_line
  | any_char
  | whitespace_char
  | non_whitespace_char
  | digit
  | non_digit
  | word
  | non_word
  | word_boundary
  | non_word_boundary
  | newline
  | carriage_return
  | tab
  | null_byte
  | named_backreference (name : String)
  | backreference (index : Nat)
  | any_of
  | group
  | assert_ahead
  | assert_not_ahead
  | capture
  | named_capture (name : String)
  | optional
  | zero_or_more
  | zero_or_more_lazy
  | one_or_more
  | one_or_more_lazy
  | exactly (times : Nat)
  | at_least (times : Nat)
  | between (low high : Nat)
  | between_lazy (low high : Nat)
  | start_of_input
  | end_of_input
  | any_of_chars (chars : String)
  | endOp
  | anything_but_string (s : String)
  | anything_but_chars (chars : String)
  | anything_but_range (low high : Char)
  | string (s : String)
  | char (c : Char)
  | range (low high : Char)
  | subexpression (expression : SuperExpressive) (ns : String)
      (ignore_flags ignore_start_and_end : Bool)
  | ascii_bell
  | ascii_backspace
  | ascii_formfeed
  | ascii_vertical_tab
  | backslash
  | start_of_string
  | end_of_string
  | hex_char (code : String)

/-- Apply one public builder operation to a state. -/
def applyOp : Op → SuperExpressive → Except Err SuperExpressive
  | .allow_multiple_matches, s => .ok s.allow_multiple_matches
  | .line_by_line, s => .ok s.line_by_line
  | .case_insensitive, s => .ok s.case_insensitive
  | .unicode, s => .ok s.unicode
  | .ascii, s => .ok s.ascii
  | .locale, s => .ok s.locale
  | .single_line, s => .ok s.single_line
  | .any_char, s => s.any_char
  | .whitespace_char, s => s.whitespace_char
  | .non_whitespace_char, s => s.non_whitespace_char
  | .digit, s => s.digit
  | .non_digit, s => s.non_digit
  | .word, s => s.word
  | .non_word, s => s.non_word
  | .word_boundary, s => s.word_boundary
  | .non_word_boundary, s => s.non_word_boundary
  | .newline, s => s.newline
  | .carriage_return, s => s.carriage_return
  | .tab, s => s.tab
  | .null_byte, s => s.null_byte
  | .named_backreference name, s => s.named_backreference name
  | .backreference index, s => s.backreference index
  | .any_of, s => s.any_of
  | .group, s => s.group
  | .assert_ahead, s => s.assert_ahead
  | .assert_not_ahead, s => s.assert_not_ahead
  | .capture, s => s.capture
  | .named_capture name, s => s.named_capture name
  | .optional, s => s.optional
  | .zero_or_more, s => s.zero_or_more
  | .zero_or_more_lazy, s => s.zero_or_more_lazy
  | .one_or_more, s => s.one_or_more
  | .one_or_more_lazy, s => s.one_or_more_lazy
  | .exactly times, s => s.exactly times
  | .at_least times, s => s.at_least times
  | .between low high, s => s.between low high
  | .between_lazy low high, s => s.between_lazy low high
  | .start_of_input, s => s.start_of_input
  | .end_of_input, s => s.end_of_input
  | .any_of_chars chars, s => s.any_of_chars chars
  | .endOp, s => s.endOp
  | .anything_but_string str, s => s.anything_but_string str
  | .anything_but_chars chars, s => s.anything_but_chars chars
  | .anything_but_range low high, s => s.anything_but_range low high
  | .string str, s => s.string str
  | .char c, s => s.char c
  | .range low high, s => s.range low high
  | .subexpression expression ns ifl ise, s => s.subexpression expression ns ifl ise
  | .ascii_bell, s => s.ascii_bell
  | .ascii_backspace, s => s.ascii_backspace
  | .ascii_formfeed, s => s.ascii_formfeed
  | .ascii_vertical_tab, s => s.ascii_vertical_tab
  | .backslash, s => s.backslash
  | .start_of_string, s => s.start_of_string
  | .end_of_string, s => s.end_of_string
  | .hex_char code, s => s.hex_char code

/-- Build states reachable from a freshly constructed builder by successful
operations. -/
inductive Reachable : SuperExpressive → Prop where
  | init (check : Bool) : Reachable { check_simple_start_and_end := check }
  | step {s s' : SuperExpressive} (o : Op) :
      Reachable s → applyOp o s = .ok s' → Reachable s'

mutual

/-- The pure tree map that adds `n` to the index of every indexed
backreference leaf and changes nothing else. -/
def shiftBackrefs (n : Nat) : Element → Element
  | .backreference index => .backreference (index + n)
  | .root cs => .root (shiftBackrefsList n cs)
  | .capture cs => .capture (shiftBackrefsList n cs)
  | .subexpression cs => .subexpression (shiftBackrefsList n cs)
  | .namedCapture cs name => .namedCapture (shiftBackrefsList n cs) name
  | .group cs => .group (shiftBackrefsList n cs)
  | .anyOf cs => .anyOf (shiftBackrefsList n cs)
  | .assertAhead cs => .assertAhead (shiftBackrefsList n cs)
  | .assertNotAhead cs => .assertNotAhead (shiftBackrefsList n cs)
  | .exactly t c => .exactly t (shiftBackrefsOpt n c)
  | .atLeast t c => .atLeast t (shiftBackrefsOpt n c)
  | .between l h c => .between l h (shiftBackrefsOpt n c)
  | .betweenLazy l h c => .betweenLazy l h (shiftBackrefsOpt n c)
  | .zeroOrMore c => .zeroOrMore (shiftBackrefsOpt n c)
  | .zeroOrMoreLazy c => .zeroOrMoreLazy (shiftBackrefsOpt n c)
  | .oneOrMore c => .oneOrMore (shiftBackrefsOpt n c)
  | .oneOrMoreLazy c => .oneOrMoreLazy (shiftBackrefsOpt n c)
  | .opt c => .opt (shiftBackrefsOpt n c)
  | e => e

def shiftBackrefsList (n : Nat) : List Element → List Element
  | [] => []
  | c :: rest => shiftBackrefs n c :: shiftBackrefsList n rest

def shiftBackrefsOpt (n : Nat) : Option Element → Option Element
  | none => none
  | some c => some (shiftBackrefs n c)

end

/-- One step of the open-node path: `child` is the set child slot of
`parent`, or the most recently appended entry of `parent`'s children. -/
def linked (parent child : Element) : Prop :=
  parent.child? = some (some child) ∨
  ∃ cs, parent.children? = some cs ∧ cs.getLast? = some child

/-- The open-node stack (innermost-first) is a path: every entry is the
open child of the next. -/
inductive Chain : List Element → Prop where
  | nil : Chain []
  | single (a : Element) : Chain [a]
  | cons {a b : Element} {rest : List Element} :
      linked b a → Chain (b :: rest) → Chain (a :: b :: rest)

/-- The structural invariant of every reachable build state: the stack is a
non-empty path whose outermost entry is the root node, every entry is
stackable, and an innermost quantifier is still unset. -/
structure StackInv (s : SuperExpressive) : Prop where
  ne : s.stack ≠ []
  root_last : ∃ cs, s.stack.getLast? = some (.root cs)
  stackable : ∀ e ∈ s.stack, e.isStackable = true
  chain : Chain s.stack
  top_unset : ∀ t, s.stack.head? = some t → t.isContainsChild = true →
    t.child? = some none


/-- Pointwise relation used to carry stack-entry classifications through the
upward propagation. -/
def presRel (a a' : Element) : Prop :=
  a'.isRoot = a.isRoot ∧ a'.isStackable = a.isStackable ∧
  a'.isContainsChild = a.isContainsChild


/-- Fields of the builder state that the merge rewrite never modifies
(it only ever touches `named_groups`). -/
def MPres (a b : SuperExpressive) : Prop :=
  b.stack = a.stack ∧ b.total_capture_groups = a.total_capture_groups ∧
  b.check_simple_start_and_end = a.check_simple_start_and_end


/-- The quantifier operations (`_quantify` call sites). -/
def Op.isQuantOp : Op → Bool
  | .optional | .zero_or_more | .zero_or_more_lazy | .one_or_more
  | .one_or_more_lazy | .exactly _ | .at_least _ | .between _ _
  | .between_lazy _ _ => true
  | _ => false

/-- Validity of a quantifier operation's own numeric bounds (the
`__post_init__` checks of `Exactly` and `Between`). -/
def Op.quantBoundsOk : Op → Bool
  | .exactly times | .at_least times => decide (times ≠ 0)
  | .between low high | .between_lazy low high => decide (low < high)
  | _ => true


/-- Host builder of the C1 scenario: one indexed capture around a single
`any_char`, fully closed. -/
def c1_host : Except Err SuperExpressive := do
  let s ← ({} : SuperExpressive).capture
  let s ← s.any_char
  s.endOp

/-- Source builder of the C1 scenario: one indexed capture and a
backreference to it, fully closed. -/
def c1_source : Except Err SuperExpressive := do
  let s ← ({} : SuperExpressive).capture
  let s ← s.any_char
  let s ← s.endOp
  s.backreference 1

/-- The C1 merge: the source spliced into the host. -/
def c1_merged : Except Err SuperExpressive := do
  let host ← c1_host
  let src ← c1_source
  host.subexpression src "" true true

/-- A builder with strict anchor checking enabled. -/
def strictSE : SuperExpressive := { check_simple_start_and_end := true }

/-- A complete source builder carrying the case-insensitive and multiline
flags. -/
def c6_source : SuperExpressive :=
  (({} : SuperExpressive).case_insensitive).line_by_line

/-- A target state with one existing capture group. -/
def c5State : SuperExpressive := { total_capture_groups := 1 }


/-- Reflexivity of the structural equality test. -/
theorem Element.beq_refl (e : Element) : Element.beq e e = true := by
  generalize hn : sizeOf e = n
  induction n using Nat.strong_induction_on generalizing e with
  | _ n ih =>
  subst hn
  cases e with
  | root cs | capture cs | subexpression cs | group cs | anyOf cs
  | assertAhead cs | assertNotAhead cs =>
    simp only [Element.beq]
    have hall : ∀ c ∈ cs, Element.beq c c = true := by
      intro c hc
      refine ih _ ?_ c rfl
      have h1 := List.sizeOf_lt_of_mem hc
      simp only [Element.root.sizeOf_spec, Element.capture.sizeOf_spec,
        Element.subexpression.sizeOf_spec, Element.group.sizeOf_spec,
        Element.anyOf.sizeOf_spec, Element.assertAhead.sizeOf_spec,
        Element.assertNotAhead.sizeOf_spec]
      omega
    clear ih
    induction cs with
    | nil => rfl
    | cons a as' ihl =>
      simp only [Element.beqList]
      rw [hall a (by simp), ihl (fun c hc => hall c (by simp [hc]))]
      rfl
  | namedCapture cs nm =>
    simp only [Element.beq, beq_self_eq_true, Bool.true_and]
    have hall : ∀ c ∈ cs, Element.beq c c = true := by
      intro c hc
      refine ih _ ?_ c rfl
      have := List.sizeOf_lt_of_mem hc
      simp only [Element.namedCapture.sizeOf_spec]
      omega
    clear ih
    induction cs with
    | nil => rfl
    | cons a as' ihl =>
      simp only [Element.beqList]
      rw [hall a (by simp), ihl (fun c hc => hall c (by simp [hc]))]
      rfl
  | exactly t c | atLeast t c =>
    cases c with
    | none => simp [Element.beq, Element.beqOpt]
    | some a =>
      simp only [Element.beq, Element.beqOpt, beq_self_eq_true, Bool.true_and]
      refine ih _ ?_ a rfl
      simp only [Element.exactly.sizeOf_spec, Element.atLeast.sizeOf_spec,
        Option.some.sizeOf_spec] <;> omega
  | between l h c | betweenLazy l h c =>
    cases c with
    | none => simp [Element.beq, Element.beqOpt]
    | some a =>
      simp only [Element.beq, Element.beqOpt, beq_self_eq_true, Bool.true_and,
        Bool.and_self]
      refine ih _ ?_ a rfl
      simp only [Element.between.sizeOf_spec, Element.betweenLazy.sizeOf_spec,
        Option.some.sizeOf_spec] <;> omega
  | zeroOrMore c | zeroOrMoreLazy c | oneOrMore c | oneOrMoreLazy c | opt c =>
    cases c with
    | none => simp [Element.beq, Element.beqOpt]
    | some a =>
      simp only [Element.beq, Element.beqOpt]
      refine ih _ ?_ a rfl
      simp only [Element.zeroOrMore.sizeOf_spec, Element.zeroOrMoreLazy.sizeOf_spec,
        Element.oneOrMore.sizeOf_spec, Element.oneOrMoreLazy.sizeOf_spec,
        Element.opt.sizeOf_spec, Option.some.sizeOf_spec] <;> omega
  | anyOfChars a | anythingButString a | anythingButChars a | string a
  | namedBackReference a | backreference a | hex a | char a =>
    simp [Element.beq]
  | anythingButRange a b | range a b => simp [Element.beq]
  | _ => rfl


namespace Element

theorem children?_eq_some_of_isContainsChildren {e : Element}
    (h : e.isContainsChildren = true) : ∃ cs, e.children? = some cs := by
  cases e <;> simp_all [isContainsChildren, children?]

theorem child?_eq_some_of_isContainsChild {e : Element}
    (h : e.isContainsChild = true) : ∃ c, e.child? = some c := by
  cases e <;> simp_all [isContainsChild, child?]

theorem child?_eq_none_of_children? {e : Element} {cs : List Element}
    (h : e.children? = some cs) : e.child? = none := by
  cases e <;> simp_all [children?, child?]

theorem isContainsChild_of_child? {e : Element} {c : Option Element}
    (h : e.child? = some c) : e.isContainsChild = true := by
  cases e <;> simp_all [child?, isContainsChild]

theorem isContainsChildren_of_children? {e : Element} {cs : List Element}
    (h : e.children? = some cs) : e.isContainsChildren = true := by
  cases e <;> simp_all [children?, isContainsChildren]

theorem not_isContainsChild_of_isContainsChildren {e : Element}
    (h : e.isContainsChildren = true) : e.isContainsChild = false := by
  cases e <;> simp_all [isContainsChildren, isContainsChild]

theorem isRoot_iff {e : Element} : e.isRoot = true ↔ ∃ cs, e = .root cs := by
  cases e <;> simp [isRoot]

theorem isContainsChild_of_isRoot_false {e : Element} (h : e.isRoot = true) :
    e.isContainsChild = false := by
  cases e <;> simp_all [isRoot, isContainsChild]

theorem isStackable_of_isRoot {e : Element} (h : e.isRoot = true) :
    e.isStackable = true := by
  cases e <;> simp_all [isRoot, isStackable, isContainsChildren, isContainsChild]

theorem child?_withChild {e : Element} {c : Option Element}
    (h : e.child? = some c) (x : Option Element) : (e.withChild x).child? = some x := by
  cases e <;> simp_all [child?, withChild]

theorem isRoot_withChild (e : Element) (x : Option Element) :
    (e.withChild x).isRoot = e.isRoot := by
  cases e <;> simp [withChild, isRoot]

theorem isContainsChild_withChild (e : Element) (x : Option Element) :
    (e.withChild x).isContainsChild = e.isContainsChild := by
  cases e <;> simp [withChild, isContainsChild]

theorem isContainsChildren_withChild (e : Element) (x : Option Element) :
    (e.withChild x).isContainsChildren = e.isContainsChildren := by
  cases e <;> simp [withChild, isContainsChildren]

theorem children?_withChildren {e : Element} {cs : List Element}
    (h : e.children? = some cs) (cs' : List Element) :
    (e.withChildren cs').children? = some cs' := by
  cases e <;> simp_all [children?, withChildren]

theorem isRoot_withChildren (e : Element) (cs' : List Element) :
    (e.withChildren cs').isRoot = e.isRoot := by
  cases e <;> simp [withChildren, isRoot]

theorem isContainsChild_withChildren (e : Element) (cs' : List Element) :
    (e.withChildren cs').isContainsChild = e.isContainsChild := by
  cases e <;> simp [withChildren, isContainsChild]

theorem isContainsChildren_withChildren (e : Element) (cs' : List Element) :
    (e.withChildren cs').isContainsChildren = e.isContainsChildren := by
  cases e <;> simp [withChildren, isContainsChildren]

theorem root_withChildren {e : Element} (h : e.isRoot = true) (cs' : List Element) :
    e.withChildren cs' = .root cs' := by
  cases e <;> simp_all [isRoot, withChildren]

theorem isStackable_withChild (e : Element) (x : Option Element) :
    (e.withChild x).isStackable = e.isStackable := by
  simp [isStackable, isContainsChild_withChild, isContainsChildren_withChild]

theorem isStackable_withChildren (e : Element) (cs' : List Element) :
    (e.withChildren cs').isStackable = e.isStackable := by
  simp [isStackable, isContainsChild_withChildren, isContainsChildren_withChildren]

end Element


theorem addChild_cases {cur e nw : Element} (h : addChild cur e = .ok nw) :
    (cur.child? = some none ∧ nw = cur.withChild (some e)) ∨
    (∃ cs, cur.children? = some cs ∧ nw = cur.withChildren (cs ++ [e])) := by
  unfold addChild at h
  rcases h1 : cur.child? with _ | c
  · rcases h2 : cur.children? with _ | cs
    · simp [h1, h2] at h
    · simp only [h1, h2] at h
      injection h with h3
      exact Or.inr ⟨cs, rfl, h3.symm⟩
  · rcases c with _ | c0
    · simp only [h1] at h
      injection h with h3
      exact Or.inl ⟨h1.symm ▸ rfl, h3.symm⟩
    · simp [h1] at h

theorem addChild_linked {cur e nw : Element} (h : addChild cur e = .ok nw) :
    linked nw e := by
  rcases addChild_cases h with ⟨h1, rfl⟩ | ⟨cs, h1, rfl⟩
  · exact Or.inl (Element.child?_withChild h1 (some e))
  · exact Or.inr ⟨cs ++ [e], Element.children?_withChildren h1 _, List.getLast?_concat _⟩

theorem addChild_pres {cur e nw : Element} (h : addChild cur e = .ok nw) :
    nw.isRoot = cur.isRoot ∧ nw.isStackable = cur.isStackable ∧
    nw.isContainsChild = cur.isContainsChild ∧
    nw.isContainsChildren = cur.isContainsChildren := by
  rcases addChild_cases h with ⟨_, rfl⟩ | ⟨cs, _, rfl⟩
  · exact ⟨Element.isRoot_withChild _ _, Element.isStackable_withChild _ _,
      Element.isContainsChild_withChild _ _, Element.isContainsChildren_withChild _ _⟩
  · exact ⟨Element.isRoot_withChildren _ _, Element.isStackable_withChildren _ _,
      Element.isContainsChild_withChildren _ _, Element.isContainsChildren_withChildren _ _⟩

theorem addChild_ok_of_unset {cur : Element} (h : cur.child? = some none)
    (e : Element) : addChild cur e = .ok (cur.withChild (some e)) := by
  unfold addChild
  simp [h]

theorem addChild_ok_of_children {cur : Element} {cs : List Element}
    (h : cur.children? = some cs) (e : Element) :
    addChild cur e = .ok (cur.withChildren (cs ++ [e])) := by
  unfold addChild
  simp [Element.child?_eq_none_of_children? h, h]

theorem replaceChild_ok_of_linked {a prev : Element} (h : linked a prev)
    (repl : Element) :
    ∃ a', replaceChild a prev repl = .ok a' ∧ linked a' repl ∧
      a'.isRoot = a.isRoot ∧ a'.isStackable = a.isStackable ∧
      a'.isContainsChild = a.isContainsChild ∧
      a'.isContainsChildren = a.isContainsChildren := by
  rcases h with h | ⟨cs, h, hlast⟩
  · refine ⟨a.withChild (some repl), ?_, ?_, Element.isRoot_withChild _ _,
      Element.isStackable_withChild _ _, Element.isContainsChild_withChild _ _,
      Element.isContainsChildren_withChild _ _⟩
    · unfold replaceChild
      simp [h, Element.beq_refl]
    · exact Or.inl (Element.child?_withChild h (some repl))
  · refine ⟨a.withChildren (cs.dropLast ++ [repl]), ?_, ?_,
      Element.isRoot_withChildren _ _, Element.isStackable_withChildren _ _,
      Element.isContainsChild_withChildren _ _,
      Element.isContainsChildren_withChildren _ _⟩
    · unfold replaceChild
      simp [Element.child?_eq_none_of_children? h, h, hlast, Element.beq_refl]
    · exact Or.inr ⟨cs.dropLast ++ [repl], Element.children?_withChildren h _,
        List.getLast?_concat _⟩


theorem forall₂_presRel_getLast {l l' : List Element}
    (h : List.Forall₂ presRel l l') {x : Element} (hx : l.getLast? = some x) :
    ∃ x', l'.getLast? = some x' ∧ presRel x x' := by
  induction h with
  | nil => simp at hx
  | cons hab hrest ih =>
    rename_i a b as bs
    rcases as with _ | ⟨a2, as2⟩
    · cases hrest
      simp at hx
      subst hx
      exact ⟨b, rfl, hab⟩
    · rcases hrest with _ | ⟨hab2, hrest2⟩
      rw [List.getLast?_cons_cons] at hx
      obtain ⟨x', hx', hp⟩ := ih hx
      refine ⟨x', ?_, hp⟩
      rw [List.getLast?_cons_cons]
      exact hx'

theorem propagate_spec (rest : List Element) :
    ∀ prev repl, Chain (prev :: rest) →
    ∃ rest', SuperExpressive.propagate prev repl rest = .ok rest' ∧
      Chain (repl :: rest') ∧ List.Forall₂ presRel rest rest' := by
  induction rest with
  | nil =>
    intro prev repl _
    exact ⟨[], rfl, Chain.single repl, List.Forall₂.nil⟩
  | cons a rest2 ih =>
    intro prev repl hchain
    rcases hchain with _ | _ | ⟨hl, hchain2⟩
    obtain ⟨a', ha', hlink', hroot, hstk, hcc, _⟩ := replaceChild_ok_of_linked hl repl
    obtain ⟨rest2', hrest2', hchain', hrel⟩ := ih a a' hchain2
    refine ⟨a' :: rest2', ?_, Chain.cons hlink' hchain', List.Forall₂.cons ⟨hroot, hstk, hcc⟩ hrel⟩
    simp only [SuperExpressive.propagate, ha', hrest2', bind, Except.bind]

theorem chain_tail {a : Element} {l : List Element} (h : Chain (a :: l)) :
    Chain l := by
  rcases h with _ | _ | ⟨_, h2⟩
  · exact Chain.nil
  · exact h2

theorem chain_suffix {l l' : List Element} (hs : l' <:+ l) (h : Chain l) :
    Chain l' := by
  obtain ⟨pre, rfl⟩ := hs
  induction pre with
  | nil => exact h
  | cons a pre ih => exact ih (chain_tail h)

theorem popCC_suffix (l : List Element) : SuperExpressive.popCC l <:+ l := by
  induction l with
  | nil => exact List.suffix_rfl
  | cons a rest ih =>
    simp only [SuperExpressive.popCC]
    split
    · exact ih.trans (List.suffix_cons a rest)
    · exact List.suffix_rfl

theorem popCC_getLast {l : List Element} {r : Element}
    (h : l.getLast? = some r) (hr : r.isContainsChild = false) :
    SuperExpressive.popCC l ≠ [] ∧ (SuperExpressive.popCC l).getLast? = some r := by
  induction l with
  | nil => simp at h
  | cons a rest ih =>
    rcases rest with _ | ⟨b, rest2⟩
    · simp only [List.getLast?_singleton, Option.some.injEq] at h
      subst h
      simp [SuperExpressive.popCC, hr]
    · rw [List.getLast?_cons_cons] at h
      simp only [SuperExpressive.popCC]
      split
      · exact ih h
      · constructor
        · simp
        · rw [List.getLast?_cons_cons]
          exact h

theorem popCC_head_not_CC {l : List Element} {t : Element}
    (h : (SuperExpressive.popCC l).head? = some t) : t.isContainsChild = false := by
  induction l with
  | nil => simp [SuperExpressive.popCC] at h
  | cons a rest ih =>
    simp only [SuperExpressive.popCC] at h
    by_cases hcc : a.isContainsChild
    · rw [if_pos hcc] at h
      exact ih h
    · rw [if_neg hcc] at h
      simp only [List.head?_cons, Option.some.injEq] at h
      subst h
      simpa using hcc

theorem popCC_mem {l : List Element} {e : Element}
    (h : e ∈ SuperExpressive.popCC l) : e ∈ l :=
  (popCC_suffix l).subset h

/-- StackInv only concerns the stack, so it transfers along stack equality. -/
theorem stackInv_congr {s s' : SuperExpressive} (h : StackInv s)
    (hs : s'.stack = s.stack) : StackInv s' := by
  refine ⟨?_, ?_, ?_, ?_, ?_⟩ <;> rw [hs]
  · exact h.ne
  · exact h.root_last
  · exact h.stackable
  · exact h.chain
  · exact h.top_unset

theorem forall₂_mem_right {α β : Type} {R : α → β → Prop} {l : List α}
    {l' : List β} (h : List.Forall₂ R l l') {b : β} (hb : b ∈ l') :
    ∃ a ∈ l, R a b := by
  induction h with
  | nil => simp at hb
  | cons hab _ ih =>
    rcases List.mem_cons.mp hb with rfl | hb'
    · exact ⟨_, List.mem_cons_self _ _, hab⟩
    · obtain ⟨a, ha, hr⟩ := ih hb'
      exact ⟨a, List.mem_cons_of_mem _ ha, hr⟩

theorem stackInv_of_stack {s' : SuperExpressive} {st : List Element}
    (hstack : s'.stack = st) (hne : st ≠ [])
    (hroot : ∃ cs, st.getLast? = some (.root cs))
    (hstk : ∀ e ∈ st, e.isStackable = true) (hchain : Chain st)
    (htop : ∀ t, st.head? = some t → t.isContainsChild = true →
      t.child? = some none) : StackInv s' := by
  subst hstack
  exact ⟨hne, hroot, hstk, hchain, htop⟩

theorem push_inv {s s' : SuperExpressive} {e : Element} (hinv : StackInv s)
    (hunset : e.isContainsChild = true → e.child? = some none)
    (h : s.push e = .ok s') : StackInv s' := by
  unfold SuperExpressive.push at h
  rcases hstack : s.stack with _ | ⟨current, rest⟩
  · rw [hstack] at h
    simp at h
  · rw [hstack] at h
    rcases hadd : addChild current e with _ | nw
    · simp [hadd, bind, Except.bind] at h
    rcases hprop : SuperExpressive.propagate current nw rest with _ | rest'
    · simp [hadd, hprop, bind, Except.bind] at h
    simp only [hadd, hprop, bind, Except.bind] at h
    -- facts about the rebuilt path nw :: rest'
    have hchain0 : Chain (current :: rest) := hstack ▸ hinv.chain
    obtain ⟨rest'₀, hprop', hchain', hrel⟩ := propagate_spec rest current nw hchain0
    rw [hprop] at hprop'
    injection hprop' with hrest'
    subst hrest'
    have hnw := addChild_pres hadd
    have hnw_linked := addChild_linked hadd
    have hcur_stk : current.isStackable = true :=
      hinv.stackable current (by rw [hstack]; exact List.mem_cons_self _ _)
    have hbase_stk : ∀ x ∈ nw :: rest', x.isStackable = true := by
      intro x hx
      rcases List.mem_cons.mp hx with rfl | hx'
      · rw [hnw.2.1]; exact hcur_stk
      · obtain ⟨a, ha, hpr⟩ := forall₂_mem_right hrel hx'
        rw [hpr.2.1]
        exact hinv.stackable a (by rw [hstack]; exact List.mem_cons_of_mem _ ha)
    have hbase_root : ∃ cs, (nw :: rest').getLast? = some (.root cs) := by
      obtain ⟨cs0, hlast0⟩ := hinv.root_last
      rw [hstack] at hlast0
      rcases rest with _ | ⟨b, rest2⟩
      · -- the stack was just the root
        cases hrel
        simp only [List.getLast?_singleton, Option.some.injEq] at hlast0
        subst hlast0
        have : nw.isRoot = true := by
          rw [hnw.1]; simp [Element.isRoot]
        obtain ⟨cs', hcs'⟩ := Element.isRoot_iff.mp this
        exact ⟨cs', by simp [hcs']⟩
      · rw [List.getLast?_cons_cons] at hlast0
        obtain ⟨x', hx', hpr⟩ := forall₂_presRel_getLast hrel hlast0
        have hx'root : x'.isRoot = true := by
          rw [hpr.1]; simp [Element.isRoot]
        obtain ⟨cs', hcs'⟩ := Element.isRoot_iff.mp hx'root
        refine ⟨cs', ?_⟩
        rcases rest' with _ | ⟨y, ys⟩
        · cases hrel
        · rw [List.getLast?_cons_cons]
          rw [hcs'] at hx'
          exact hx'
    split at h
    · -- a stackable element is pushed on top
      injection h with hs'
      have hstack' : s'.stack = e :: nw :: rest' := by rw [← hs']
      refine stackInv_of_stack hstack' (by simp) ?_ ?_ ?_ ?_
      · obtain ⟨cs', hcs'⟩ := hbase_root
        exact ⟨cs', by rw [List.getLast?_cons_cons]; exact hcs'⟩
      · intro x hx
        rcases List.mem_cons.mp hx with rfl | hx'
        · assumption
        · exact hbase_stk x hx'
      · exact Chain.cons hnw_linked hchain'
      · intro t ht hcc
        simp only [List.head?_cons, Option.some.injEq] at ht
        subst ht
        exact hunset hcc
    · -- a leaf: auto-close set single-child containers
      injection h with hs'
      have hstack' : s'.stack = SuperExpressive.popCC (nw :: rest') := by rw [← hs']
      obtain ⟨cs', hcs'⟩ := hbase_root
      have hrootnotcc : (Element.root cs').isContainsChild = false := by
        simp [Element.isContainsChild]
      obtain ⟨hpop_ne, hpop_last⟩ := popCC_getLast hcs' hrootnotcc
      refine stackInv_of_stack hstack' hpop_ne ⟨cs', hpop_last⟩ ?_
        (chain_suffix (popCC_suffix _) hchain') ?_
      · intro x hx
        exact hbase_stk x (popCC_mem hx)
      · intro t ht hcc
        rw [popCC_head_not_CC ht] at hcc
        cases hcc

theorem end_inv {s s' : SuperExpressive} (hinv : StackInv s)
    (h : s.endOp = .ok s') : StackInv s' := by
  rcases hstack : s.stack with _ | ⟨t, rest⟩
  · exact absurd hstack hinv.ne
  rcases rest with _ | ⟨b, rest2⟩
  · -- a one-entry stack: `end` refuses to close the root
    rw [SuperExpressive.endOp, hstack] at h
    simp at h
  · rw [SuperExpressive.endOp, hstack] at h
    simp only [List.length_cons, Nat.reduceLeDiff, if_false] at h
    by_cases hccs : t.isContainsChildren = true
    case neg =>
      rw [if_pos (by simpa using hccs)] at h
      cases h
    case pos =>
      rw [if_neg (by simpa using hccs)] at h
      injection h with hs'
      have hstack' : s'.stack = SuperExpressive.popCC (b :: rest2) := by rw [← hs']
      obtain ⟨cs0, hlast0⟩ := hinv.root_last
      rw [hstack, List.getLast?_cons_cons] at hlast0
      have hrootnotcc : (Element.root cs0).isContainsChild = false := by
        simp [Element.isContainsChild]
      obtain ⟨hpop_ne, hpop_last⟩ := popCC_getLast hlast0 hrootnotcc
      refine stackInv_of_stack hstack' hpop_ne ⟨cs0, hpop_last⟩ ?_
        (chain_suffix (popCC_suffix _) (chain_tail (hstack ▸ hinv.chain))) ?_
      · intro x hx
        exact hinv.stackable x
          (by rw [hstack]; exact List.mem_cons_of_mem _ (popCC_mem hx))
      · intro t' ht' hcc
        rw [popCC_head_not_CC ht'] at hcc
        cases hcc

/-- Under the invariant, `_push` always succeeds: the innermost open node
accepts a child (it is a multi-child container or an unset quantifier) and
the upward propagation follows the open path. -/
theorem push_ok {s : SuperExpressive} (hinv : StackInv s) (e : Element) :
    ∃ s', s.push e = .ok s' := by
  rcases hstack : s.stack with _ | ⟨current, rest⟩
  · exact absurd hstack hinv.ne
  · have hcur_stk : current.isStackable = true :=
      hinv.stackable current (by rw [hstack]; exact List.mem_cons_self _ _)
    have haddok : ∃ nw, addChild current e = .ok nw := by
      rcases Bool.or_eq_true_iff.mp hcur_stk with hcc | hccs
      · have hunset : current.child? = some none :=
          hinv.top_unset current (by rw [hstack]; rfl) hcc
        exact ⟨_, addChild_ok_of_unset hunset e⟩
      · obtain ⟨cs, hcs⟩ := Element.children?_eq_some_of_isContainsChildren hccs
        exact ⟨_, addChild_ok_of_children hcs e⟩
    obtain ⟨nw, hadd⟩ := haddok
    obtain ⟨rest', hprop, _, _⟩ :=
      propagate_spec rest current nw (hstack ▸ hinv.chain)
    by_cases hstk : e.isStackable = true
    · refine ⟨{ s with stack := e :: nw :: rest' }, ?_⟩
      rw [SuperExpressive.push, hstack]
      simp only [hadd, hprop, bind, Except.bind, hstk, if_true]
    · refine ⟨{ s with stack := SuperExpressive.popCC (nw :: rest') }, ?_⟩
      rw [SuperExpressive.push, hstack]
      simp only [hadd, hprop, bind, Except.bind]
      rw [if_neg (by simpa using hstk)]


theorem MPres.refl (a : SuperExpressive) : MPres a a := ⟨rfl, rfl, rfl⟩

theorem MPres.trans {a b c : SuperExpressive} (h1 : MPres a b)
    (h2 : MPres b c) : MPres a c :=
  ⟨h2.1.trans h1.1, h2.2.1.trans h1.2.1, h2.2.2.trans h1.2.2⟩

theorem except_bind_ok {α β : Type} {x : Except Err α} {f : α → Except Err β}
    {b : β} (h : (x >>= f) = .ok b) : ∃ a, x = .ok a ∧ f a = .ok b := by
  rcases x with e | a
  · simp [bind, Except.bind] at h
  · exact ⟨a, rfl, by simpa [bind, Except.bind] using h⟩

theorem merge_children_pres_aux {ns : String} {ig : Bool} (cs : List Element)
    (hstep : ∀ c ∈ cs, ∀ st1 st2 c',
      _merge_in_element st1 c ns ig = .ok (st2, c') → MPres st1 st2) :
    ∀ st st' cs', _merge_children st ns ig cs = .ok (st', cs') → MPres st st' := by
  induction cs with
  | nil =>
    intro st st' cs' h
    simp only [_merge_children] at h
    injection h with h1
    injection h1 with h2 _
    subst h2
    exact MPres.refl st
  | cons c rest ih =>
    intro st st' cs' h
    simp only [_merge_children] at h
    obtain ⟨⟨st1, c'⟩, hm, h⟩ := except_bind_ok h
    obtain ⟨⟨st2, rest'⟩, hr, h⟩ := except_bind_ok h
    injection h with h1
    injection h1 with h2 _
    subst h2
    exact (hstep c (List.mem_cons_self _ _) _ _ _ hm).trans
      (ih (fun x hx => hstep x (List.mem_cons_of_mem _ hx)) _ _ _ hr)

theorem merge_quant_pres {st st' : SuperExpressive} {ns : String} {ig : Bool}
    {mk : Option Element → Element} {c : Option Element} {e' : Element}
    (hstep : ∀ c0, c = some c0 → ∀ st1 st2 c',
      _merge_in_element st1 c0 ns ig = .ok (st2, c') → MPres st1 st2)
    (h : _merge_quant st ns ig mk c = .ok (st', e')) : MPres st st' := by
  rcases c with _ | c0
  · simp only [_merge_quant] at h
    injection h with h1
    injection h1 with h2 _
    subst h2
    exact MPres.refl st
  · simp only [_merge_quant] at h
    obtain ⟨⟨st1, c'⟩, hm, h⟩ := except_bind_ok h
    injection h with h1
    injection h1 with h2 _
    subst h2
    exact hstep c0 rfl _ _ _ hm

/-- Source `_merge_in_element` never modifies the target's stack, its capture
count, or its configuration switch (it only updates `named_groups`). -/
theorem merge_pres (e : Element) : ∀ (st st' : SuperExpressive) (ns : String)
    (ig : Bool) (e' : Element),
    _merge_in_element st e ns ig = .ok (st', e') → MPres st st' := by
  generalize hn : sizeOf e = n
  induction n using Nat.strong_induction_on generalizing e with
  | _ n ih =>
  subst hn
  intro st st' ns ig e' h
  cases e with
  | backreference index =>
    simp only [_merge_in_element] at h
    injection h with h1
    injection h1 with h2 _
    subst h2
    exact MPres.refl st
  | root cs | capture cs | subexpression cs | group cs | anyOf cs
  | assertAhead cs | assertNotAhead cs =>
    simp only [_merge_in_element] at h
    have hall : ∀ c ∈ cs, ∀ st1 st2 c',
        _merge_in_element st1 c ns ig = .ok (st2, c') → MPres st1 st2 := by
      intro c hc st1 st2 c' hmc
      refine ih _ ?_ c rfl st1 st2 ns ig c' hmc
      have h1 := List.sizeOf_lt_of_mem hc
      simp only [Element.root.sizeOf_spec, Element.capture.sizeOf_spec,
        Element.subexpression.sizeOf_spec, Element.group.sizeOf_spec,
        Element.anyOf.sizeOf_spec, Element.assertAhead.sizeOf_spec,
        Element.assertNotAhead.sizeOf_spec]
      omega
    obtain ⟨⟨st1, cs'⟩, hm, h⟩ := except_bind_ok h
    injection h with h1
    injection h1 with h2 _
    subst h2
    exact merge_children_pres_aux cs hall _ _ _ hm
  | namedCapture cs name =>
    simp only [_merge_in_element] at h
    have hall : ∀ c ∈ cs, ∀ st1 st2 c',
        _merge_in_element st1 c ns ig = .ok (st2, c') → MPres st1 st2 := by
      intro c hc st1 st2 c' hmc
      refine ih _ ?_ c rfl st1 st2 ns ig c' hmc
      have h1 := List.sizeOf_lt_of_mem hc
      simp only [Element.namedCapture.sizeOf_spec]
      omega
    split at h <;> [skip; split at h] <;> [skip; cases h; skip] <;>
      [split at h; split at h] <;> [cases h; skip; cases h; skip] <;>
      (obtain ⟨⟨st2, cs'⟩, hm, h⟩ := except_bind_ok h;
       injection h with h1;
       injection h1 with h2 _;
       subst h2;
       refine MPres.trans ?_ (merge_children_pres_aux cs hall _ _ _ hm);
       exact ⟨rfl, rfl, rfl⟩)
  | namedBackReference name =>
    simp only [_merge_in_element] at h
    split at h <;> [skip; split at h] <;> [skip; cases h; skip] <;>
      (injection h with h1;
       injection h1 with h2 _;
       subst h2;
       exact MPres.refl st)
  | exactly t c | atLeast t c =>
    simp only [_merge_in_element] at h
    refine merge_quant_pres ?_ h
    intro c0 hc0 st1 st2 c' hmc
    subst hc0
    refine ih _ ?_ c0 rfl st1 st2 ns ig c' hmc
    simp only [Element.exactly.sizeOf_spec, Element.atLeast.sizeOf_spec,
      Option.some.sizeOf_spec] <;> omega
  | between l hb c | betweenLazy l hb c =>
    simp only [_merge_in_element] at h
    refine merge_quant_pres ?_ h
    intro c0 hc0 st1 st2 c' hmc
    subst hc0
    refine ih _ ?_ c0 rfl st1 st2 ns ig c' hmc
    simp only [Element.between.sizeOf_spec, Element.betweenLazy.sizeOf_spec,
      Option.some.sizeOf_spec] <;> omega
  | zeroOrMore c | zeroOrMoreLazy c | oneOrMore c | oneOrMoreLazy c | opt c =>
    simp only [_merge_in_element] at h
    refine merge_quant_pres ?_ h
    intro c0 hc0 st1 st2 c' hmc
    subst hc0
    refine ih _ ?_ c0 rfl st1 st2 ns ig c' hmc
    simp only [Element.zeroOrMore.sizeOf_spec, Element.zeroOrMoreLazy.sizeOf_spec,
      Element.oneOrMore.sizeOf_spec, Element.oneOrMoreLazy.sizeOf_spec,
      Element.opt.sizeOf_spec, Option.some.sizeOf_spec] <;> omega
  | startOfInput =>
    simp only [_merge_in_element] at h
    split at h
    · injection h with h1
      injection h1 with h2 _
      subst h2
      exact MPres.refl st
    split at h
    · cases h
    split at h
    · cases h
    injection h with h1
    injection h1 with h2 _
    subst h2
    exact MPres.refl st
  | endOfInput =>
    simp only [_merge_in_element] at h
    split at h
    · injection h with h1
      injection h1 with h2 _
      subst h2
      exact MPres.refl st
    split at h
    · cases h
    injection h with h1
    injection h1 with h2 _
    subst h2
    exact MPres.refl st
  | _ =>
    simp only [_merge_in_element] at h
    injection h with h1
    injection h1 with h2 _
    subst h2
    exact MPres.refl st

theorem merge_flags_stack {s expression merged m' : SuperExpressive} {ifl : Bool}
    (hm : merged.stack = s.stack)
    (hf : SuperExpressive._merge_flags s expression merged ifl = .ok m') :
    m'.stack = s.stack := by
  unfold SuperExpressive._merge_flags at hf
  split at hf
  · split at hf
    · cases hf
    · injection hf with h1
      subst h1
      split
      · rfl
      split
      · rfl
      split
      · rfl
      split
      · rfl
      exact hm
  · injection hf with h1
    subst h1
    exact hm

theorem applyOp_inv {o : Op} {s s' : SuperExpressive} (hinv : StackInv s)
    (h : applyOp o s = .ok s') : StackInv s' := by
  cases o with
  | allow_multiple_matches | line_by_line | case_insensitive | unicode
  | ascii | locale | single_line =>
    simp only [applyOp, SuperExpressive.allow_multiple_matches,
      SuperExpressive.line_by_line, SuperExpressive.case_insensitive,
      SuperExpressive.unicode, SuperExpressive.ascii, SuperExpressive.locale,
      SuperExpressive.single_line] at h
    injection h with h1
    subst h1
    exact stackInv_congr hinv rfl
  | any_char | whitespace_char | non_whitespace_char | digit | non_digit
  | word | non_word | word_boundary | non_word_boundary | newline
  | carriage_return | tab | null_byte | ascii_bell | ascii_formfeed
  | ascii_vertical_tab | backslash | start_of_string | end_of_string =>
    simp only [applyOp, SuperExpressive.any_char, SuperExpressive.whitespace_char,
      SuperExpressive.non_whitespace_char, SuperExpressive.digit,
      SuperExpressive.non_digit, SuperExpressive.word, SuperExpressive.non_word,
      SuperExpressive.word_boundary, SuperExpressive.non_word_boundary,
      SuperExpressive.newline, SuperExpressive.carriage_return,
      SuperExpressive.tab, SuperExpressive.null_byte, SuperExpressive.ascii_bell,
      SuperExpressive.ascii_formfeed, SuperExpressive.ascii_vertical_tab,
      SuperExpressive.backslash, SuperExpressive.start_of_string,
      SuperExpressive.end_of_string] at h
    exact push_inv hinv (by intro hcc; simp [Element.isContainsChild] at hcc) h
  | char c =>
    simp only [applyOp, SuperExpressive.char] at h
    exact push_inv hinv (by intro hcc; simp [Element.isContainsChild] at hcc) h
  | backreference index =>
    simp only [applyOp, SuperExpressive.backreference] at h
    split at h
    · cases h
    · exact push_inv hinv (by intro hcc; simp [Element.isContainsChild] at hcc) h
  | named_backreference name =>
    simp only [applyOp, SuperExpressive.named_backreference] at h
    split at h
    · cases h
    split at h
    · cases h
    exact push_inv hinv (by intro hcc; simp [Element.isContainsChild] at hcc) h
  | any_of_chars chars =>
    simp only [applyOp, SuperExpressive.any_of_chars] at h
    split at h
    · cases h
    · exact push_inv hinv (by intro hcc; simp [Element.isContainsChild] at hcc) h
  | anything_but_string str =>
    simp only [applyOp, SuperExpressive.anything_but_string] at h
    split at h
    · cases h
    · exact push_inv hinv (by intro hcc; simp [Element.isContainsChild] at hcc) h
  | anything_but_chars chars =>
    simp only [applyOp, SuperExpressive.anything_but_chars] at h
    split at h
    · cases h
    · exact push_inv hinv (by intro hcc; simp [Element.isContainsChild] at hcc) h
  | anything_but_range low high =>
    simp only [applyOp, SuperExpressive.anything_but_range] at h
    split at h
    · cases h
    · exact push_inv hinv (by intro hcc; simp [Element.isContainsChild] at hcc) h
  | string str =>
    simp only [applyOp, SuperExpressive.string] at h
    split at h
    · cases h
    · exact push_inv hinv (by intro hcc; simp [Element.isContainsChild] at hcc) h
  | range low high =>
    simp only [applyOp, SuperExpressive.range] at h
    split at h
    · cases h
    · exact push_inv hinv (by intro hcc; simp [Element.isContainsChild] at hcc) h
  | hex_char code =>
    simp only [applyOp, SuperExpressive.hex_char] at h
    split at h
    · exact push_inv hinv (by intro hcc; simp [Element.isContainsChild] at hcc) h
    · cases h
  | start_of_input =>
    simp only [applyOp, SuperExpressive.start_of_input] at h
    split at h
    · cases h
    split at h
    · cases h
    exact push_inv hinv (by intro hcc; simp [Element.isContainsChild] at hcc) h
  | end_of_input =>
    simp only [applyOp, SuperExpressive.end_of_input] at h
    split at h
    · cases h
    · exact push_inv hinv (by intro hcc; simp [Element.isContainsChild] at hcc) h
  | ascii_backspace =>
    simp only [applyOp, SuperExpressive.ascii_backspace] at h
    rcases hstack : s.stack with _ | ⟨t, rest⟩
    · rw [hstack] at h
      cases h
    · rw [hstack] at h
      simp only [] at h
      split at h
      · cases h
      · exact push_inv hinv (by intro hcc; simp [Element.isContainsChild] at hcc) h
  | any_of =>
    simp only [applyOp, SuperExpressive.any_of] at h
    exact push_inv hinv (by intro hcc; simp [Element.isContainsChild] at hcc) h
  | group =>
    simp only [applyOp, SuperExpressive.group] at h
    exact push_inv hinv (by intro hcc; simp [Element.isContainsChild] at hcc) h
  | assert_ahead =>
    simp only [applyOp, SuperExpressive.assert_ahead] at h
    exact push_inv hinv (by intro hcc; simp [Element.isContainsChild] at hcc) h
  | assert_not_ahead =>
    simp only [applyOp, SuperExpressive.assert_not_ahead] at h
    exact push_inv hinv (by intro hcc; simp [Element.isContainsChild] at hcc) h
  | capture =>
    simp only [applyOp, SuperExpressive.capture] at h
    obtain ⟨s1, hpush, h⟩ := except_bind_ok h
    injection h with h1
    subst h1
    exact stackInv_congr (push_inv hinv (by intro hcc; simp [Element.isContainsChild] at hcc) hpush) rfl
  | named_capture name =>
    simp only [applyOp, SuperExpressive.named_capture] at h
    split at h
    · cases h
    split at h
    · cases h
    obtain ⟨s1, hpush, h⟩ := except_bind_ok h
    injection h with h1
    subst h1
    exact stackInv_congr (push_inv hinv (by intro hcc; simp [Element.isContainsChild] at hcc) hpush) rfl
  | optional | zero_or_more | zero_or_more_lazy | one_or_more | one_or_more_lazy =>
    simp only [applyOp, SuperExpressive.optional, SuperExpressive.zero_or_more,
      SuperExpressive.zero_or_more_lazy, SuperExpressive.one_or_more,
      SuperExpressive.one_or_more_lazy] at h
    rcases hstack : s.stack with _ | ⟨t, rest⟩
    · exact absurd hstack hinv.ne
    · simp only [SuperExpressive._quantify, hstack] at h
      split at h
      · cases h
      · exact push_inv hinv (by intro _; rfl) h
  | exactly times =>
    simp only [applyOp, SuperExpressive.exactly] at h
    split at h
    · cases h
    rcases hstack : s.stack with _ | ⟨t, rest⟩
    · exact absurd hstack hinv.ne
    · simp only [SuperExpressive._quantify, hstack] at h
      split at h
      · cases h
      · exact push_inv hinv (by intro _; rfl) h
  | at_least times =>
    simp only [applyOp, SuperExpressive.at_least] at h
    split at h
    · cases h
    rcases hstack : s.stack with _ | ⟨t, rest⟩
    · exact absurd hstack hinv.ne
    · simp only [SuperExpressive._quantify, hstack] at h
      split at h
      · cases h
      · exact push_inv hinv (by intro _; rfl) h
  | between low high =>
    simp only [applyOp, SuperExpressive.between] at h
    split at h
    · cases h
    rcases hstack : s.stack with _ | ⟨t, rest⟩
    · exact absurd hstack hinv.ne
    · simp only [SuperExpressive._quantify, hstack] at h
      split at h
      · cases h
      · exact push_inv hinv (by intro _; rfl) h
  | between_lazy low high =>
    simp only [applyOp, SuperExpressive.between_lazy] at h
    split at h
    · cases h
    rcases hstack : s.stack with _ | ⟨t, rest⟩
    · exact absurd hstack hinv.ne
    · simp only [SuperExpressive._quantify, hstack] at h
      split at h
      · cases h
      · exact push_inv hinv (by intro _; rfl) h
  | endOp =>
    simp only [applyOp] at h
    exact end_inv hinv h
  | subexpression expr ns ifl ise =>
    simp only [applyOp, SuperExpressive.subexpression] at h
    rcases hst : expr.stack with _ | ⟨r, rest⟩
    · simp only [hst] at h
      cases h
    rcases rest with _ | ⟨r2, rest2⟩
    · simp only [hst] at h
      obtain ⟨⟨merged, element⟩, hm, h⟩ := except_bind_ok h
      obtain ⟨merged', hf, h⟩ := except_bind_ok h
      have hms : merged.stack = s.stack := (merge_pres r s merged ns ise element hm).1
      have hfs : merged'.stack = s.stack := merge_flags_stack hms hf
      rcases hch : element.children? with _ | cs
      · simp [hch] at h
      · simp only [hch] at h
        obtain ⟨s1, hpush, hend⟩ := except_bind_ok h
        exact end_inv (push_inv (stackInv_congr hinv hfs) (by intro hcc; simp [Element.isContainsChild] at hcc) hpush) hend
    · simp only [hst] at h
      cases h

theorem reachable_inv {s : SuperExpressive} (h : Reachable s) : StackInv s := by
  induction h with
  | init check =>
    refine ⟨by simp, ⟨[], by simp⟩, ?_, Chain.single _, ?_⟩
    · intro e he
      simp only [List.mem_singleton] at he
      subst he
      rfl
    · intro t ht hcc
      simp only [List.head?_cons, Option.some.injEq] at ht
      subst ht
      cases hcc
  | step o hr heq ih => exact applyOp_inv ih heq

theorem merge_children_shift_aux (cs : List Element)
    (hstep : ∀ c ∈ cs, ∀ st1 st1' c',
      _merge_in_element st1 c "" false = .ok (st1', c') →
      c' = shiftBackrefs st1.total_capture_groups c) :
    ∀ st st' cs', _merge_children st "" false cs = .ok (st', cs') →
      cs' = shiftBackrefsList st.total_capture_groups cs := by
  induction cs with
  | nil =>
    intro st st' cs' h
    simp only [_merge_children] at h
    injection h with h1
    injection h1 with _ h2
    subst h2
    rfl
  | cons c rest ih =>
    intro st st' cs' h
    simp only [_merge_children] at h
    obtain ⟨⟨st1, c'⟩, hm, h⟩ := except_bind_ok h
    obtain ⟨⟨st2, rest'⟩, hr, h⟩ := except_bind_ok h
    injection h with h1
    injection h1 with _ h2
    subst h2
    have htot : st1.total_capture_groups = st.total_capture_groups :=
      (merge_pres c st st1 "" false c' hm).2.1
    have hc' : c' = shiftBackrefs st.total_capture_groups c :=
      hstep c (List.mem_cons_self _ _) st st1 c' hm
    have hrest' : rest' = shiftBackrefsList st1.total_capture_groups rest :=
      ih (fun x hx => hstep x (List.mem_cons_of_mem _ hx)) st1 st2 rest' hr
    rw [htot] at hrest'
    simp only [shiftBackrefsList, hc', hrest']

/-- In a namespace-free, anchor-keeping merge, the element rewrite is exactly
the backreference shift by the target's pre-merge capture count. -/
theorem merge_shift (e : Element) : ∀ (st st' : SuperExpressive) (e' : Element),
    _merge_in_element st e "" false = .ok (st', e') →
    e' = shiftBackrefs st.total_capture_groups e := by
  generalize hn : sizeOf e = n
  induction n using Nat.strong_induction_on generalizing e with
  | _ n ih =>
  subst hn
  intro st st' e' h
  cases e with
  | backreference index =>
    simp only [_merge_in_element] at h
    injection h with h1
    injection h1 with _ h2
    subst h2
    rfl
  | root cs | capture cs | subexpression cs | group cs | anyOf cs
  | assertAhead cs | assertNotAhead cs =>
    simp only [_merge_in_element] at h
    have hall : ∀ c ∈ cs, ∀ st1 st1' c',
        _merge_in_element st1 c "" false = .ok (st1', c') →
        c' = shiftBackrefs st1.total_capture_groups c := by
      intro c hc st1 st1' c' hmc
      refine ih _ ?_ c rfl st1 st1' c' hmc
      have h1 := List.sizeOf_lt_of_mem hc
      simp only [Element.root.sizeOf_spec, Element.capture.sizeOf_spec,
        Element.subexpression.sizeOf_spec, Element.group.sizeOf_spec,
        Element.anyOf.sizeOf_spec, Element.assertAhead.sizeOf_spec,
        Element.assertNotAhead.sizeOf_spec]
      omega
    obtain ⟨⟨st1, cs'⟩, hm, h⟩ := except_bind_ok h
    injection h with h1
    injection h1 with _ h2
    subst h2
    simp only [shiftBackrefs]
    rw [merge_children_shift_aux cs hall st st1 cs' hm]
  | namedCapture cs name =>
    simp only [_merge_in_element] at h
    have hall : ∀ c ∈ cs, ∀ st1 st1' c',
        _merge_in_element st1 c "" false = .ok (st1', c') →
        c' = shiftBackrefs st1.total_capture_groups c := by
      intro c hc st1 st1' c' hmc
      refine ih _ ?_ c rfl st1 st1' c' hmc
      have h1 := List.sizeOf_lt_of_mem hc
      simp only [Element.namedCapture.sizeOf_spec]
      omega
    rw [if_pos (by rfl)] at h
    split at h
    · cases h
    obtain ⟨⟨st2, cs'⟩, hm, h⟩ := except_bind_ok h
    injection h with h1
    injection h1 with _ h2
    subst h2
    simp only [shiftBackrefs]
    rw [merge_children_shift_aux cs hall _ st2 cs' hm]
  | namedBackReference name =>
    simp only [_merge_in_element] at h
    rw [if_pos (by rfl)] at h
    injection h with h1
    injection h1 with _ h2
    subst h2
    rfl
  | exactly t c | atLeast t c | between l hb c | betweenLazy l hb c
  | zeroOrMore c | zeroOrMoreLazy c | oneOrMore c | oneOrMoreLazy c | opt c =>
    simp only [_merge_in_element] at h
    rcases c with _ | c0
    · simp only [_merge_quant] at h
      injection h with h1
      injection h1 with _ h2
      subst h2
      rfl
    · simp only [_merge_quant] at h
      obtain ⟨⟨st1, c'⟩, hm, h⟩ := except_bind_ok h
      injection h with h1
      injection h1 with _ h2
      subst h2
      have hc' : c' = shiftBackrefs st.total_capture_groups c0 := by
        refine ih _ ?_ c0 rfl st st1 c' hm
        simp only [Element.exactly.sizeOf_spec, Element.atLeast.sizeOf_spec,
          Element.between.sizeOf_spec, Element.betweenLazy.sizeOf_spec,
          Element.zeroOrMore.sizeOf_spec, Element.zeroOrMoreLazy.sizeOf_spec,
          Element.oneOrMore.sizeOf_spec, Element.oneOrMoreLazy.sizeOf_spec,
          Element.opt.sizeOf_spec, Option.some.sizeOf_spec] <;> omega
      rw [hc']
      rfl
  | startOfInput =>
    simp only [_merge_in_element] at h
    rw [if_neg (by simp)] at h
    split at h
    · cases h
    split at h
    · cases h
    injection h with h1
    injection h1 with _ h2
    subst h2
    rfl
  | endOfInput =>
    simp only [_merge_in_element] at h
    rw [if_neg (by simp)] at h
    split at h
    · cases h
    injection h with h1
    injection h1 with _ h2
    subst h2
    rfl
  | _ =>
    simp only [_merge_in_element] at h
    injection h with h1
    injection h1 with _ h2
    subst h2
    rfl


/-- Quantifier stacking discipline of the builder (the `_quantify` guard):
on a reachable state whose innermost open node is an unset quantifier every
quantifier operation with valid bounds errors, and otherwise it succeeds. -/
theorem quantify_discipline (s : SuperExpressive) (o : Op) (hr : Reachable s)
    (hq : o.isQuantOp = true) (hb : o.quantBoundsOk = true) :
    ((∃ t, s.stack.head? = some t ∧ t.isContainsChild = true ∧
        t.child? = some none) → applyOp o s = .error .runtimeError) ∧
    ((¬ ∃ t, s.stack.head? = some t ∧ t.isContainsChild = true ∧
        t.child? = some none) → ∃ s', applyOp o s = .ok s') := by
  have hinv := reachable_inv hr
  rcases hstack : s.stack with _ | ⟨t, rest⟩
  · exact absurd hstack hinv.ne
  have hnotcc : (¬ ∃ t0, (t :: rest).head? = some t0 ∧ t0.isContainsChild = true ∧
      t0.child? = some none) → t.isContainsChild = false := by
    intro hn
    by_contra hcon
    rw [Bool.not_eq_false] at hcon
    exact hn ⟨t, rfl, hcon, hinv.top_unset t (by rw [hstack]; rfl) hcon⟩
  cases o with
  | optional | zero_or_more | zero_or_more_lazy | one_or_more | one_or_more_lazy =>
    refine ⟨?_, ?_⟩
    · rintro ⟨t0, ht0, hcc, -⟩
      simp only [List.head?_cons, Option.some.injEq] at ht0
      subst ht0
      simp only [applyOp, SuperExpressive.optional, SuperExpressive.zero_or_more,
        SuperExpressive.zero_or_more_lazy, SuperExpressive.one_or_more,
        SuperExpressive.one_or_more_lazy, SuperExpressive._quantify, hstack]
      rw [if_pos hcc]
    · intro hn
      simp only [applyOp, SuperExpressive.optional, SuperExpressive.zero_or_more,
        SuperExpressive.zero_or_more_lazy, SuperExpressive.one_or_more,
        SuperExpressive.one_or_more_lazy, SuperExpressive._quantify, hstack]
      rw [if_neg (by simp [hnotcc hn])]
      exact push_ok hinv _
  | exactly times | at_least times =>
    simp only [Op.quantBoundsOk] at hb
    have ht : ¬ (times = 0) := of_decide_eq_true hb
    refine ⟨?_, ?_⟩
    · rintro ⟨t0, ht0, hcc, -⟩
      simp only [List.head?_cons, Option.some.injEq] at ht0
      subst ht0
      simp only [applyOp, SuperExpressive.exactly, SuperExpressive.at_least,
        SuperExpressive._quantify, hstack]
      rw [if_neg ht, if_pos hcc]
    · intro hn
      simp only [applyOp, SuperExpressive.exactly, SuperExpressive.at_least,
        SuperExpressive._quantify, hstack]
      rw [if_neg ht, if_neg (by simp [hnotcc hn])]
      exact push_ok hinv _
  | between low high | between_lazy low high =>
    simp only [Op.quantBoundsOk] at hb
    have hlh : low < high := of_decide_eq_true hb
    refine ⟨?_, ?_⟩
    · rintro ⟨t0, ht0, hcc, -⟩
      simp only [List.head?_cons, Option.some.injEq] at ht0
      subst ht0
      simp only [applyOp, SuperExpressive.between, SuperExpressive.between_lazy,
        SuperExpressive._quantify, hstack]
      rw [if_neg (by omega), if_pos hcc]
    · intro hn
      simp only [applyOp, SuperExpressive.between, SuperExpressive.between_lazy,
        SuperExpressive._quantify, hstack]
      rw [if_neg (by omega), if_neg (by simp [hnotcc hn])]
      exact push_ok hinv _
  | allow_multiple_matches | line_by_line | case_insensitive | unicode | ascii | locale | single_line | any_char | whitespace_char | non_whitespace_char | digit | non_digit | word | non_word | word_boundary | non_word_boundary | newline | carriage_return | tab | null_byte | named_backreference _ | backreference _ | any_of | group | assert_ahead | assert_not_ahead | capture | named_capture _ | start_of_input | end_of_input | any_of_chars _ | endOp | anything_but_string _ | anything_but_chars _ | anything_but_range _ _ | string _ | char _ | range _ _ | subexpression _ _ _ _ | ascii_bell | ascii_backspace | ascii_formfeed | ascii_vertical_tab | backslash | start_of_string | end_of_string | hex_char _ =>
    simp [Op.isQuantOp] at hq

theorem renderNonFusable_eq (cs : List Element) :
    renderNonFusable cs = (cs.filter (fun c => ! c.isFusable)).map render := by
  induction cs with
  | nil => rfl
  | cons c rest ih =>
    simp only [renderNonFusable, List.filter_cons]
    by_cases hf : c.isFusable = true
    · simp [hf, ih]
    · simp only [Bool.not_eq_true] at hf
      simp [hf, ih]


set_option maxHeartbeats 2000000 in
/-- C1: merging a sub-expression with one indexed capture into a host that
already has one capture does NOT update the host's capture bookkeeping
additively: the source's `additional_capture_groups` counter is computed but
never applied, so the merged state still reports `total_capture_groups = 1`
even though its rendered pattern `(.)(.)\2` contains two capture groups, and
a subsequent `backreference 2` is rejected. -/
theorem subexpression_capture_count_not_additive :
    (c1_merged.map fun s => (s.total_capture_groups, s.toStr)) =
      .ok (1, some "(.)(.)\\2") ∧
    ((c1_merged >>= fun s => s.backreference 2).map SuperExpressive.toStr) =
      .error .valueError := by
  exact ⟨rfl, rfl⟩

/-- C2: the terminal render operation performs no completeness check: on a
state with an open capture (stack length 2) it happily renders the partial
text `()`, and on a state with an unset quantifier it renders the garbage
text `None*`; it does not fail. -/
theorem render_ignores_open_containers :
    ((({} : SuperExpressive).capture).map fun s => (s.stack.length, s.toStr)) =
      .ok (2, some "()") ∧
    ((({} : SuperExpressive).zero_or_more).map fun s => (s.stack.length, s.toStr)) =
      .ok (2, some "None*") := by
  exact ⟨rfl, rfl⟩

/-- C3: with strict anchor checking enabled, appending a second end-of-input
anchor is accepted (rendering `$$`), a start-of-input anchor after an
end-of-input anchor is accepted (rendering `$^`), an end-of-input anchor
after a start-of-input anchor is rejected, and a start-of-input anchor
hidden in an already-closed group is not detected — because `_end_defined` tests for
`StartOfInput` and the scan only inspects the stack entries' immediate
children. -/
theorem anchor_checks_inspect_start_only :
    ((strictSE.end_of_input >>= SuperExpressive.end_of_input).map
      SuperExpressive.toStr = .ok (some "$$")) ∧
    ((strictSE.end_of_input >>= SuperExpressive.start_of_input).map
      SuperExpressive.toStr = .ok (some "$^")) ∧
    (strictSE.start_of_input >>= SuperExpressive.end_of_input =
      .error .runtimeError) ∧
    (((strictSE.group >>= SuperExpressive.start_of_input >>=
        SuperExpressive.endOp) >>= SuperExpressive.start_of_input).map
      SuperExpressive.toStr = .ok (some "(?:^)^")) := by
  exact ⟨rfl, rfl, rfl, rfl⟩

/-- C4: `backreference 0` is accepted by the bounds check `0 <= index <=
total_capture_groups` even on a builder with zero capture groups, and pushes
a leaf rendering `\0`; index 1 (exceeding the count) is rejected. -/
theorem backreference_zero_accepted :
    ((({} : SuperExpressive).backreference 0).map SuperExpressive.toStr =
      .ok (some "\\0")) ∧
    (({} : SuperExpressive).backreference 1 = .error .valueError) := by
  exact ⟨rfl, rfl⟩

/-- C5: during a sub-expression merge every indexed-backreference leaf is
shifted by exactly the target's pre-merge `total_capture_groups` (the count
never changes during the rewrite), and in a namespace-free, anchor-keeping
merge the rewritten tree is exactly the source tree with that shift applied,
so the merged content otherwise renders identically. -/
theorem merge_backreference_shift :
    (∀ (st : SuperExpressive) (i : Nat) (ns : String) (ig : Bool),
      _merge_in_element st (.backreference i) ns ig =
        .ok (st, .backreference (i + st.total_capture_groups))) ∧
    (∀ (st st' : SuperExpressive) (e e' : Element),
      _merge_in_element st e "" false = .ok (st', e') →
      e' = shiftBackrefs st.total_capture_groups e) := by
  refine ⟨fun st i ns ig => rfl, fun st st' e e' h => merge_shift e st st' e' h⟩

/-- Witness for C5 at a concrete input: merging a root holding one capture
and a backreference `\1` into a target with one existing capture rewrites
the tree to hold `\2`. -/
theorem merge_backreference_shift_witness :
    Element.root [.capture [.anyChar], .backreference 2] =
      shiftBackrefs c5State.total_capture_groups
        (.root [.capture [.anyChar], .backreference 1]) :=
  merge_backreference_shift.2 c5State c5State
    (.root [.capture [.anyChar], .backreference 1])
    (.root [.capture [.anyChar], .backreference 2]) rfl

/-- C6: with flag merging enabled, incompatible encoding flags are a hard
error, but the OR-merge of the four mergeable flags is broken: merging a
source with both case-insensitive and multiline set into a fresh target
yields a state with only multiline set, because each flag branch rebuilds
its result from the pre-merge target. -/
theorem flags_merge_drops_earlier_flags :
    ((({} : SuperExpressive).subexpression c6_source "" false true).map
      fun s => (s.f_ignorecase, s.f_multiline, s.f_dotall, s.f_global)) =
      .ok (false, true, false, false) ∧
    (({} : SuperExpressive).ascii.subexpression c6_source "" false true =
      .error .valueError) := by
  exact ⟨rfl, rfl⟩

/-- Counterexample for C7: an alternation with no children at all (every
immediate child vacuously fusable) renders as the empty non-capturing group
`(?:)`, not as a bracketed character class. -/
theorem any_of_empty_renders_group : render (.anyOf []) = "(?:)" := rfl

/-- C7 (amended): for an alternation with at least one child, if every
immediate child is a single character, character range, or explicit
character set, the output is exactly one bracketed character class; if
fusable children are mixed with non-fusable alternatives, the non-fusable
alternatives are joined by `|` inside a non-capturing group with the fused
class as the trailing alternative. -/
theorem any_of_render_fusion :
    (∀ cs : List Element, cs ≠ [] → (∀ c ∈ cs, c.isFusable = true) →
      render (.anyOf cs) = "[" ++ String.join (cs.map Element.fuseText) ++ "]") ∧
    (∀ cs : List Element, (∃ c ∈ cs, c.isFusable = true) →
      (∃ c ∈ cs, c.isFusable = false) →
      render (.anyOf cs) = "(?:" ++ String.intercalate "|"
        (((cs.filter (fun c => ! c.isFusable)).map render) ++
          ["[" ++ String.join
            ((cs.filter Element.isFusable).map Element.fuseText) ++ "]"]) ++ ")") := by
  constructor
  · intro cs hne hall
    have hfil : cs.filter Element.isFusable = cs :=
      List.filter_eq_self.mpr hall
    have hnf : renderNonFusable cs = [] := by
      rw [renderNonFusable_eq]
      have : cs.filter (fun c => ! c.isFusable) = [] := by
        rw [List.filter_eq_nil_iff]
        intro a ha
        simp [hall a ha]
      rw [this, List.map_nil]
    simp only [render, hfil, hnf]
    rw [if_pos (by simpa using hne)]
    simp
  · intro cs hfus hnonfus
    obtain ⟨cf, hcf, hcff⟩ := hfus
    obtain ⟨cn, hcn, hcnf⟩ := hnonfus
    have h1 : (cs.filter Element.isFusable).map Element.fuseText ≠ [] := by
      have hm : cf ∈ cs.filter Element.isFusable :=
        List.mem_filter.mpr ⟨hcf, hcff⟩
      exact List.ne_nil_of_mem (List.mem_map_of_mem _ hm)
    have h2 : renderNonFusable cs ≠ [] := by
      rw [renderNonFusable_eq]
      have hm : cn ∈ cs.filter (fun c => ! c.isFusable) :=
        List.mem_filter.mpr ⟨hcn, by simp [hcnf]⟩
      exact List.ne_nil_of_mem (List.mem_map_of_mem _ hm)
    simp only [render]
    rw [if_pos h1, if_neg h2, renderNonFusable_eq]

/-- Witness for C7 at the repository's own test inputs. -/
theorem any_of_render_fusion_witness :
    render (.anyOf [.range 'a' 'z', .range 'A' 'Z', .range '0' '9']) =
      "[a-zA-Z0-9]" ∧
    render (.anyOf [.string "XXX", .range 'a' 'z']) = "(?:XXX|[a-z])" := by
  constructor
  · refine (any_of_render_fusion.1
      [.range 'a' 'z', .range 'A' 'Z', .range '0' '9'] (by simp) ?_).trans (by rfl)
    intro c hc
    fin_cases hc <;> rfl
  · refine (any_of_render_fusion.2 [.string "XXX", .range 'a' 'z']
      ⟨.range 'a' 'z', by simp, rfl⟩ ⟨.string "XXX", by simp, rfl⟩).trans (by rfl)

/-- Counterexample for C8: a single-character literal string is a leaf that
renders as one token, yet quantifying it zero-or-more wraps it, rendering
`(?:h)*` (every `String` node is marked as requiring grouping, not only
multi-character ones). -/
theorem single_char_string_quantified_wraps :
    render (.zeroOrMore (some (.string "h"))) = "(?:h)*" := rfl

/-- C8 (amended): a quantifier appends its suffix to the child's rendered
text, wrapping the child in a non-capturing group exactly when the child's
type is marked as requiring grouping (the root, spliced sub-expressions,
and every literal string, including single-character ones); all other
leaves are quantified unwrapped. -/
theorem quantifier_render_grouping :
    ∀ (e : Element) (sym : String) (c : Element), e.quantSymbol = some sym →
      e.child? = some (some c) →
      render e =
        (if c.requiresGroup then "(?:" ++ render c ++ ")" else render c) ++ sym := by
  intro e sym c hsym hchild
  cases e <;>
    simp_all [Element.quantSymbol, Element.child?, render, renderQuant]

/-- Witness for C8: the two-character literal `ab` quantified zero-or-more
renders wrapped, the `\w` leaf renders unwrapped. -/
theorem quantifier_render_grouping_witness :
    render (.zeroOrMore (some (.string "ab"))) = "(?:ab)*" ∧
    render (.zeroOrMore (some .word)) = "\\w*" :=
  ⟨(quantifier_render_grouping (.zeroOrMore (some (.string "ab"))) "*"
      (.string "ab") rfl rfl).trans (by rfl),
   (quantifier_render_grouping (.zeroOrMore (some .word)) "*"
      .word rfl rfl).trans (by rfl)⟩

/-- Counterexample for C9: on the fresh builder (whose innermost open node
is the root, not a quantifier) the quantifier operation `exactly 0` still
raises an error, because the quantifier's own bounds validation rejects a
zero count before the stack is consulted. -/
theorem quantifier_exactly_zero_errors_on_root :
    applyOp (Op.exactly 0) {} = .error .valueError ∧
    ({} : SuperExpressive).stack.head? = some (.root []) := ⟨rfl, rfl⟩

/-- Witness for C9: on the fresh builder, whose innermost open node is not
an unset quantifier, `zero_or_more` succeeds. -/
theorem quantify_discipline_witness :
    ∃ s', applyOp Op.zero_or_more {} = .ok s' :=
  (quantify_discipline {} Op.zero_or_more (Reachable.init false) rfl rfl).2
    (by
      rintro ⟨t0, ht0, hcc, -⟩
      injection ht0 with ht0
      subst ht0
      simp [Element.isContainsChild] at hcc)

/-- C10: every build state reachable by successful operations has a
non-empty open stack whose outermost entry is the root multi-child
container; the explicit close operation refuses to pop the last stack
entry, and the state counts as complete for the code's own completeness
check (mergeable as a sub-expression) exactly when the stack has length
one.  (The stack is stored innermost-first here, so the Python `stack[0]`
is the last entry.) -/
theorem reachable_stack_root_invariant (s : SuperExpressive)
    (h : Reachable s) :
    s.stack ≠ [] ∧ (∃ cs, s.stack.getLast? = some (.root cs)) ∧
    (s.stack.length ≤ 1 → s.endOp = .error .runtimeError) ∧
    (∀ (host : SuperExpressive) (ns : String) (ifl ise : Bool),
      s.stack.length ≠ 1 →
      host.subexpression s ns ifl ise = .error .valueError) := by
  have hinv := reachable_inv h
  refine ⟨hinv.ne, hinv.root_last, ?_, ?_⟩
  · intro hlen
    unfold SuperExpressive.endOp
    rw [if_pos hlen]
  · intro host ns ifl ise hlen
    rcases hstack : s.stack with _ | ⟨r, rest⟩
    · simp [SuperExpressive.subexpression, hstack]
    rcases rest with _ | ⟨r2, rest2⟩
    · exact absurd (by rw [hstack]; rfl) hlen
    · simp [SuperExpressive.subexpression, hstack]

/-- Witness for C10 at the fresh builder. -/
theorem reachable_stack_root_invariant_witness :
    ({} : SuperExpressive).stack ≠ [] ∧
    (∃ cs, ({} : SuperExpressive).stack.getLast? = some (.root cs)) ∧
    (({} : SuperExpressive).stack.length ≤ 1 →
      ({} : SuperExpressive).endOp = .error .runtimeError) ∧
    (∀ (host : SuperExpressive) (ns : String) (ifl ise : Bool),
      ({} : SuperExpressive).stack.length ≠ 1 →
      host.subexpression {} ns ifl ise = .error .valueError) :=
  reachable_stack_root_invariant {} (Reachable.init false)
